import Mathlib

set_option maxHeartbeats 1000000

/- Shallow embedding of the tool-calling core of lumis.py: the tool
extractor, the tool executor with its permission gate, the Poe backend
client's credential loop, context trimming and the agent loop.  Python's
dynamically typed values are modelled by the JVal type, Python exceptions
by an Except layer that the blanket `except` clauses catch. -/

/-- Dynamic JSON-like values, modelling the Python values that flow through
the tool layer of lumis.py.  Numbers are modelled as integers: every numeric
field the tool layer inspects (line, depth, timeout, indices) is used as an
integer. -/
inductive JVal where
  | null
  | bool (b : Bool)
  | num (n : Int)
  | str (s : String)
  | arr (xs : List JVal)
  | obj (fields : List (String × JVal))

/-- Python exceptions that can escape a handler and reach a blanket
except clause. -/
inductive PyExc where
  | typeError
  | attributeError
  | keyError
  | indexError
  | valueError
  | osError (msg : String)
deriving DecidableEq

/-- Rendering of a caught exception, standing in for Python `str(e)`. -/
def PyExc.toMessage : PyExc → String
  | .typeError => "TypeError"
  | .attributeError => "AttributeError"
  | .keyError => "KeyError"
  | .indexError => "IndexError"
  | .valueError => "ValueError"
  | .osError msg => msg

/-- Field lookup in an object's association list (keys are unique in parsed
objects, first binding wins). -/
def lookupField : List (String × JVal) → String → Option JVal
  | [], _ => none
  | (k, v) :: rest, key => if k == key then some v else lookupField rest key

/-- Python `call.get(key, default)` where `call` is a dict; the executor
guards every use with an isinstance check, so the non-dict arm is unreachable
there and simply yields the default. -/
def objGetD (v : JVal) (key : String) (dflt : JVal) : JVal :=
  match v with
  | .obj fields => (lookupField fields key).getD dflt
  | _ => dflt

/-- Python truthiness of a value. -/
def JVal.truthy : JVal → Bool
  | .null => false
  | .bool b => b
  | .num n => n != 0
  | .str s => !s.isEmpty
  | .arr xs => !xs.isEmpty
  | .obj fields => !fields.isEmpty

/-- Python `str(v)` and f-string rendering; exact for the scalar values the
program formats, best-effort for containers (the program only formats
scalars). -/
def pyStr : JVal → String
  | .null => "None"
  | .bool true => "True"
  | .bool false => "False"
  | .num n => toString n
  | .str s => s
  | .arr _ => "[...]"
  | .obj _ => "\x7b...\x7d"

/-- Python `v == "s"` for a dynamic value compared against a string. -/
def isStrV (v : JVal) (s : String) : Bool :=
  match v with
  | .str t => t == s
  | _ => false

/-- Value of decimal digits. -/
def digitsToNat (ds : List Char) : Nat :=
  ds.foldl (fun acc c => acc * 10 + (c.toNat - 48)) 0

/-- Python `int(v)`: ints pass through, bools coerce, decimal strings parse
(ValueError otherwise), anything else raises TypeError. -/
def pyInt : JVal → Except PyExc Int
  | .num n => .ok n
  | .bool b => .ok (if b then 1 else 0)
  | .str s =>
    let t := s.data.dropWhile (fun c => c == ' ')
    let (neg, t) := match t with
      | '-' :: r => (true, r)
      | r => (false, r)
    let ds := t.takeWhile Char.isDigit
    let rest := (t.dropWhile Char.isDigit).dropWhile (fun c => c == ' ')
    if ds.isEmpty || !rest.isEmpty then .error .valueError
    else .ok (if neg then -(digitsToNat ds : Int) else (digitsToNat ds : Int))
  | _ => .error .typeError

/-- Coerce to a string, raising TypeError the way `Path(v)` or `v in s` do on
a non-string value. -/
def asStrT : JVal → Except PyExc String
  | .str s => .ok s
  | _ => .error .typeError

/-- Coerce to a string, raising AttributeError the way a string-method call
(`v.endswith`, `v.lower`) does on a non-string value. -/
def asStrA : JVal → Except PyExc String
  | .str s => .ok s
  | _ => .error .attributeError

/-- Coerce to an integer for an arithmetic comparison such as `min(v, 120)`:
Python raises TypeError on non-numbers (bool is an int in Python). -/
def asNum : JVal → Except PyExc Int
  | .num n => .ok n
  | .bool b => .ok (if b then 1 else 0)
  | _ => .error .typeError

/-- Python `for x in v`: lists yield elements, strings yield 1-character
strings, dicts yield their keys, other values raise TypeError. -/
def asIterable : JVal → Except PyExc (List JVal)
  | .arr xs => .ok xs
  | .str s => .ok (s.data.map (fun c => .str (String.mk [c])))
  | .obj fields => .ok (fields.map (fun kv => .str kv.1))
  | _ => .error .typeError

/-- Python `v[:n]`: strings and lists slice, everything else raises
TypeError. -/
def pySliceTake (n : Nat) : JVal → Except PyExc JVal
  | .str s => .ok (.str (String.mk (s.data.take n)))
  | .arr xs => .ok (.arr (xs.take n))
  | _ => .error .typeError

/-- JSON whitespace characters. -/
def isJsonWs (c : Char) : Bool := c == ' ' || c == '\t' || c == '\n' || c == '\r'

/-- Skip JSON whitespace. -/
def skipWs (s : List Char) : List Char := s.dropWhile isJsonWs

/-- Single-character JSON escapes. -/
def escChar : Char → Option Char
  | 'n' => some '\n'
  | 't' => some '\t'
  | 'r' => some '\r'
  | 'b' => some '\x08'
  | 'f' => some '\x0c'
  | '"' => some '"'
  | '\\' => some '\\'
  | '/' => some '/'
  | _ => none

/-- Hex digit value. -/
def hexVal (c : Char) : Option Nat :=
  if '0' ≤ c ∧ c ≤ '9' then some (c.toNat - 48)
  else if 'a' ≤ c ∧ c ≤ 'f' then some (c.toNat - 87)
  else if 'A' ≤ c ∧ c ≤ 'F' then some (c.toNat - 55)
  else none

/-- Decode a JSON string body after the opening quote, returning the decoded
characters and the input after the closing quote. -/
def parseStringBody : List Char → Option (List Char × List Char)
  | [] => none
  | '"' :: rest => some ([], rest)
  | '\\' :: 'u' :: h1 :: h2 :: h3 :: h4 :: rest =>
    match hexVal h1, hexVal h2, hexVal h3, hexVal h4 with
    | some a, some b, some c, some d =>
      (parseStringBody rest).map
        (fun p => (Char.ofNat (((a * 16 + b) * 16 + c) * 16 + d) :: p.1, p.2))
    | _, _, _, _ => none
  | '\\' :: e :: rest =>
    match escChar e with
    | some c => (parseStringBody rest).map (fun p => (c :: p.1, p.2))
    | none => none
  | c :: rest =>
    if c.toNat < 32 then none
    else (parseStringBody rest).map (fun p => (c :: p.1, p.2))

/-- Parse a JSON integer.  Tool payloads use integral numbers only; a
fractional or exponent part is outside the model and fails the parse. -/
def parseNumber (s : List Char) : Option (Int × List Char) :=
  let (neg, s1) := match s with
    | '-' :: r => (true, r)
    | r => (false, r)
  let ds := s1.takeWhile Char.isDigit
  let rest := s1.dropWhile Char.isDigit
  if ds.isEmpty then none
  else match rest with
    | '.' :: _ => none
    | 'e' :: _ => none
    | 'E' :: _ => none
    | _ => some (if neg then -(digitsToNat ds : Int) else (digitsToNat ds : Int), rest)

/-- Python dict assignment while building an object: an existing key is
overwritten in place, a new key is appended. -/
def objInsert : List (String × JVal) → String → JVal → List (String × JVal)
  | [], k, v => [(k, v)]
  | (k', v') :: rest, k, v =>
    if k' == k then (k, v) :: rest else (k', v') :: objInsert rest k v

mutual

/-- Fueled JSON value parser modelling `json.loads`; returns the parsed
value and the remaining input. -/
def parseValue : Nat → List Char → Option (JVal × List Char)
  | 0, _ => none
  | fuel + 1, s =>
    match skipWs s with
    | '"' :: rest => (parseStringBody rest).map (fun p => (.str (String.mk p.1), p.2))
    | '{' :: rest =>
      match skipWs rest with
      | '}' :: rest1 => some (.obj [], rest1)
      | _ => parseFields fuel rest []
    | '[' :: rest =>
      match skipWs rest with
      | ']' :: rest1 => some (.arr [], rest1)
      | _ => parseItems fuel rest []
    | 't' :: 'r' :: 'u' :: 'e' :: rest => some (.bool true, rest)
    | 'f' :: 'a' :: 'l' :: 's' :: 'e' :: rest => some (.bool false, rest)
    | 'n' :: 'u' :: 'l' :: 'l' :: rest => some (.null, rest)
    | other => (parseNumber other).map (fun p => (.num p.1, p.2))

/-- Parse the `"key": value` members of an object, ending at the closing
brace. -/
def parseFields : Nat → List Char → List (String × JVal) → Option (JVal × List Char)
  | 0, _, _ => none
  | fuel + 1, s, acc =>
    match skipWs s with
    | '"' :: rest =>
      match parseStringBody rest with
      | none => none
      | some (kcs, rest1) =>
        match skipWs rest1 with
        | ':' :: rest2 =>
          match parseValue fuel rest2 with
          | none => none
          | some (v, rest3) =>
            match skipWs rest3 with
            | ',' :: rest4 => parseFields fuel rest4 (objInsert acc (String.mk kcs) v)
            | '}' :: rest4 => some (.obj (objInsert acc (String.mk kcs) v), rest4)
            | _ => none
        | _ => none
    | _ => none

/-- Parse the elements of an array, ending at the closing bracket. -/
def parseItems : Nat → List Char → List JVal → Option (JVal × List Char)
  | 0, _, _ => none
  | fuel + 1, s, acc =>
    match parseValue fuel s with
    | none => none
    | some (v, rest) =>
      match skipWs rest with
      | ',' :: rest1 => parseItems fuel rest1 (acc ++ [v])
      | ']' :: rest1 => some (.arr (acc ++ [v]), rest1)
      | _ => none

end

/-- Model of Python `json.loads`: the whole input must be consumed apart
from trailing whitespace. -/
def jsonLoads (s : List Char) : Option JVal :=
  match parseValue (2 * s.length + 2) s with
  | some (v, rest) => if (skipWs rest).isEmpty then some v else none
  | none => none

/-- JSON string escaping as `json.dumps` performs it for the characters that
occur in tool payloads. -/
def escCharsOut : List Char → List Char
  | [] => []
  | c :: rest =>
    (if c == '"' then ['\\', '"']
     else if c == '\\' then ['\\', '\\']
     else if c == '\n' then ['\\', 'n']
     else if c == '\t' then ['\\', 't']
     else if c == '\r' then ['\\', 'r']
     else [c]) ++ escCharsOut rest

/-- Serialize a string the way `json.dumps` does. -/
def dumpsStr (s : String) : String := String.mk ('"' :: (escCharsOut s.data ++ ['"']))

/-- Code-point lexicographic strict order on character lists, as Python
compares strings when sorting keys. -/
def strLtL : List Char → List Char → Bool
  | [], [] => false
  | [], _ :: _ => true
  | _ :: _, [] => false
  | a :: as, b :: bs =>
    if a.toNat < b.toNat then true
    else if b.toNat < a.toNat then false
    else strLtL as bs

/-- Non-strict string order used to sort object keys. -/
def strLeKey (a b : String) : Bool := !(strLtL b.data a.data)

/-- Join strings with a separator. -/
def joinSep (sep : String) : List String → String
  | [] => ""
  | [x] => x
  | x :: y :: rest => x ++ sep ++ joinSep sep (y :: rest)

/-- Glue rendered object fields in key-sorted order with the default
`json.dumps` separators. -/
def renderSorted (ps : List (String × String)) : String :=
  let sorted := ps.insertionSort (fun a b => strLeKey a.1 b.1 = true)
  "\x7b" ++ joinSep ", " (sorted.map (fun p => dumpsStr p.1 ++ ": " ++ p.2)) ++ "\x7d"

mutual

/-- Canonical key-sorted serialization of a value, modelling
`json.dumps(v, sort_keys=True)`: the deduplication key of
`extract_tool_calls` (lumis.py line 683). -/
def canon : JVal → String
  | .null => "null"
  | .bool true => "true"
  | .bool false => "false"
  | .num n => toString n
  | .str s => dumpsStr s
  | .arr xs => "[" ++ canonItems xs ++ "]"
  | .obj fields => renderSorted (canonFields fields)

/-- Serialize array elements. -/
def canonItems : List JVal → String
  | [] => ""
  | [x] => canon x
  | x :: y :: rest => canon x ++ ", " ++ canonItems (y :: rest)

/-- Render each object field's value. -/
def canonFields : List (String × JVal) → List (String × String)
  | [] => []
  | (k, v) :: rest => (k, canon v) :: canonFields rest

end

/-- The backquote character, written via its code point. -/
def backquote : Char := Char.ofNat 96

/-- The three-backquote code fence. -/
def fence : List Char := "```".data

/-- The optional language hint accepted by pattern 1. -/
def jsonWord : List Char := "json".data

/-- Regex whitespace class \s (ASCII part). -/
def isReWs (c : Char) : Bool :=
  c == ' ' || c == '\t' || c == '\n' || c == '\r' || c == '\x0b' || c == '\x0c'

/-- Regex word class \w (ASCII part; lumis.py only meets ASCII here). -/
def isWordChar (c : Char) : Bool := c.isAlphanum || c == '_'

/-- A character the lookarounds of pattern 3 reject. -/
def isTickOrWord (c : Char) : Bool := c == backquote || isWordChar c

/-- Lazy close of the fenced-block pattern: the first closing brace after a
nonempty body that is followed by optional whitespace and a fence ends the
group; the group and the text after the whole match are returned. -/
def p1Close (body : List Char) : List Char → Option (List Char × List Char)
  | [] => none
  | c :: rest =>
    if c == '}' && !body.isEmpty && fence.isPrefixOf (rest.dropWhile isReWs) then
      some (body ++ ['}'], (rest.dropWhile isReWs).drop 3)
    else p1Close (body ++ [c]) rest

/-- After the backquotes and optional "json" hint: whitespace, then a brace
group. -/
def p1AfterTicks (u : List Char) : Option (List Char × List Char) :=
  match u.dropWhile isReWs with
  | '{' :: rest => (p1Close [] rest).map (fun p => ('{' :: p.1, p.2))
  | _ => none

/-- Attempt pattern 1 (lumis.py line 689) at the current position; the
greedy optional "json" hint is tried first, as the regex engine does. -/
def p1At (s : List Char) : Option (List Char × List Char) :=
  if fence.isPrefixOf s then
    let t := s.drop 3
    match (if jsonWord.isPrefixOf t then p1AfterTicks (t.drop 4) else none) with
    | some r => some r
    | none => p1AfterTicks t
  else none

/-- finditer for pattern 1: try each position left to right, resuming after
the end of every match. -/
def p1Scan : Nat → List Char → List (List Char)
  | 0, _ => []
  | fuel + 1, s =>
    match s with
    | [] => []
    | _ :: rest =>
      match p1At s with
      | some (g, after) => g :: p1Scan fuel after
      | none => p1Scan fuel rest

/-- Opening delimiter of pattern 2. -/
def toolOpen : List Char := "<tool>".data

/-- Closing delimiter of pattern 2. -/
def toolClose : List Char := "</tool>".data

/-- Lazy close of the tool-tag pattern. -/
def p2Close (body : List Char) : List Char → Option (List Char × List Char)
  | [] => none
  | c :: rest =>
    if c == '}' && !body.isEmpty && toolClose.isPrefixOf (rest.dropWhile isReWs) then
      some (body ++ ['}'], (rest.dropWhile isReWs).drop 7)
    else p2Close (body ++ [c]) rest

/-- Attempt pattern 2 (lumis.py line 696) at the current position. -/
def p2At (s : List Char) : Option (List Char × List Char) :=
  if toolOpen.isPrefixOf s then
    match (s.drop 6).dropWhile isReWs with
    | '{' :: rest => (p2Close [] rest).map (fun p => ('{' :: p.1, p.2))
    | _ => none
  else none

/-- finditer for pattern 2. -/
def p2Scan : Nat → List Char → List (List Char)
  | 0, _ => []
  | fuel + 1, s =>
    match s with
    | [] => []
    | _ :: rest =>
      match p2At s with
      | some (g, after) => g :: p2Scan fuel after
      | none => p2Scan fuel rest

/-- Literal head of pattern 3. -/
def toolHead : List Char := "\x7b\"tool\"".data

/-- Lazy search for the closing brace of pattern 3, honouring its negative
lookahead; returns the input remaining after the brace.  The flag records
whether the lazy middle has consumed at least one character. -/
def p3Close (nonempty : Bool) : List Char → Option (List Char)
  | [] => none
  | c :: rest =>
    if c == '}' && nonempty &&
        (match rest with
         | [] => true
         | d :: _ => !isTickOrWord d) then
      some rest
    else p3Close true rest

/-- Attempt pattern 3 (lumis.py line 704) at the current position: the
literal head, whitespace, a colon, whitespace, a nonempty quoted value, then
a lazy run up to a closing brace passing the lookahead. -/
def p3At (s : List Char) : Option (List Char × List Char) :=
  if toolHead.isPrefixOf s then
    match (s.drop 7).dropWhile isReWs with
    | ':' :: t1 =>
      match t1.dropWhile isReWs with
      | '"' :: t2 =>
        let v := t2.takeWhile (fun c => c != '"')
        if v.isEmpty then none
        else
          match t2.drop v.length with
          | '"' :: t3 =>
            match p3Close false t3 with
            | some rest => some (s.take (s.length - rest.length), rest)
            | none => none
          | _ => none
      | _ => none
    | _ => none
  else none

/-- finditer for pattern 3, tracking the previous character for the negative
lookbehind. -/
def p3Scan : Nat → Option Char → List Char → List (List Char)
  | 0, _, _ => []
  | fuel + 1, prev, s =>
    match s with
    | [] => []
    | c :: rest =>
      if (match prev with
          | none => true
          | some p => !isTickOrWord p) then
        match p3At s with
        | some (g, after) => g :: p3Scan fuel (some '}') after
        | none => p3Scan fuel (some c) rest
      else p3Scan fuel (some c) rest

/-- The brace-balancing loop of pattern 3 (lumis.py lines 708-717): walk the
candidate tracking depth; the end is just after the first return to depth
zero, and 0 if the depth never returns to zero. -/
def braceEndGo : List Char → Int → Nat → Nat
  | [], _, _ => 0
  | c :: rest, depth, i =>
    if c == '{' then braceEndGo rest (depth + 1) (i + 1)
    else if c == '}' then
      if depth - 1 == 0 then i + 1 else braceEndGo rest (depth - 1) (i + 1)
    else braceEndGo rest depth (i + 1)

/-- Entry point of the brace balancing. -/
def braceEnd (cand : List Char) : Nat := braceEndGo cand 0 0

/-- Running extraction state: collected tool calls and the seen set of
canonical serializations. -/
abbrev ExtractState := List JVal × List String

/-- Model of the local `add_tool` (lumis.py lines 681-686): keep dicts with
a truthy "tool" entry, deduplicated by canonical key-sorted serialization,
first occurrence winning. -/
def add_tool (st : ExtractState) (data : JVal) : ExtractState :=
  match data with
  | .obj fields =>
    if (objGetD (.obj fields) "tool" .null).truthy then
      if st.2.contains (canon (.obj fields)) then st
      else (st.1 ++ [.obj fields], st.2 ++ [canon (.obj fields)])
    else st
  | _ => st

/-- Process one candidate from pattern 1 or 2: parse it as JSON and feed it
to add_tool; a parse failure is silently dropped. -/
def addCand (st : ExtractState) (g : List Char) : ExtractState :=
  match jsonLoads g with
  | some v => add_tool st v
  | none => st

/-- Process one pattern-3 candidate: brace-balance to find the object's true
end, then parse that prefix (lumis.py lines 706-719). -/
def addCand3 (st : ExtractState) (g : List Char) : ExtractState :=
  if braceEnd g > 0 then
    match jsonLoads (g.take (braceEnd g)) with
    | some v => add_tool st v
    | none => st
  else st

/-- Candidates of pattern 1 over a whole text, in match order. -/
def cands1 (cs : List Char) : List (List Char) := p1Scan (cs.length + 1) cs

/-- Candidates of pattern 2 over a whole text, in match order. -/
def cands2 (cs : List Char) : List (List Char) := p2Scan (cs.length + 1) cs

/-- Candidates of pattern 3 over a whole text, in match order. -/
def cands3 (cs : List Char) : List (List Char) := p3Scan (cs.length + 1) none cs

/-- The extraction state after patterns 1 and 2 have been processed. -/
def state12 (cs : List Char) : ExtractState :=
  (cands2 cs).foldl addCand ((cands1 cs).foldl addCand ([], []))

/-- Model of `extract_tool_calls` (lumis.py lines 673-724). -/
def extract_tool_calls (text : String) : List JVal :=
  if text.isEmpty then []
  else
    let cs := text.data
    let st := state12 cs
    if st.1.isEmpty then ((cands3 cs).foldl addCand3 st).1
    else st.1

/-- MAX_FILE_SIZE (lumis.py line 37). -/
def MAX_FILE_SIZE : Nat := 500000

/-- MAX_CONTEXT_MESSAGES (lumis.py line 36). -/
def MAX_CONTEXT_MESSAGES : Nat := 40

/-- MAX_TOOL_LOOPS (lumis.py line 38). -/
def MAX_TOOL_LOOPS : Nat := 15

/-- Model of the executor's result dicts: ok plus the optional fields the
various handlers attach. -/
structure ToolResult where
  ok : Bool
  result : Option String := none
  error : Option String := none
  tool : Option String := none
  truncated : Bool := false
  lines : Option String := none
  size : Option Nat := none
  code : Option Int := none
deriving DecidableEq

/-- A regular file of the modelled filesystem: decoded text content, stat
size in bytes, and permission flags deciding PermissionError. -/
structure FileData where
  content : List Char
  size : Nat
  readable : Bool := true
  writable : Bool := true
deriving DecidableEq

/-- A filesystem node: a regular file, or a directory with child nodes (the
flag models whether iterdir is permitted). -/
inductive FsNode where
  | file (f : FileData)
  | dir (listable : Bool) (children : List (String × FsNode))

/-- Outcome of a shell invocation. -/
inductive ShellOut where
  | completed (output : String) (exitCode : Int)
  | timedOut
  | launchFailed (msg : String)

/-- The three outcomes of the interactive permission prompt. -/
inductive PermChoice where
  | yes
  | trustAll
  | no

/-- One task of the session todo list. -/
structure TodoItem where
  task : JVal
  done : Bool

/-- The session todo list. -/
structure TodoList where
  title : JVal
  tasks : List TodoItem

/-- Ambient state and external collaborators of the executor: the
filesystem keyed by resolved path, the path resolver modelling
Path(p).expanduser().resolve(), the shell, the user's answer to the
permission prompt, the process-wide trust latch and the session todo
list. -/
structure Env where
  fs : List (String × FsNode)
  resolve : String → String
  shell : String → Int → ShellOut
  choose : String → String → PermChoice
  trust : Bool
  todo : Option TodoList

/-- Look up a resolved path. -/
def lookupFs : List (String × FsNode) → String → Option FsNode
  | [], _ => none
  | (p, n) :: rest, q => if p == q then some n else lookupFs rest q

/-- Store a node at a resolved path, replacing any previous node. -/
def storeFs : List (String × FsNode) → String → FsNode → List (String × FsNode)
  | [], q, n => [(q, n)]
  | (p, m) :: rest, q, n =>
    if p == q then (q, n) :: rest else (p, m) :: storeFs rest q n

/-- Remove a path. -/
def removeFs : List (String × FsNode) → String → List (String × FsNode)
  | [], _ => []
  | (p, m) :: rest, q => if p == q then rest else (p, m) :: removeFs rest q

/-- The line-boundary characters of Python str.splitlines: newline,
carriage return, vertical tab, form feed, the file/group/record
separators, next line, and the Unicode line and paragraph separators. -/
def isLineBreak (c : Char) : Bool :=
  c = '\n' || c = '\r' || c = '\x0b' || c = '\x0c' ||
  c = '\x1c' || c = '\x1d' || c = '\x1e' || c = '\x85' ||
  c = '\u2028' || c = '\u2029'

/-- Worker for splitKeepEnds, reading two characters ahead: a carriage
return directly followed by a newline is one boundary, every other
line-boundary character ends a line by itself (a lone final character
always closes the last line, with or without a boundary). -/
def splitKeepEndsGo (acc : List Char) : List Char → List (List Char)
  | [] => if acc.isEmpty then [] else [acc]
  | [c] => [acc ++ [c]]
  | c :: d :: rest =>
    if c = '\r' then
      if d = '\n' then (acc ++ ['\r', '\n']) :: splitKeepEndsGo [] rest
      else (acc ++ ['\r']) :: splitKeepEndsGo [] (d :: rest)
    else if isLineBreak c then (acc ++ [c]) :: splitKeepEndsGo [] (d :: rest)
    else splitKeepEndsGo (acc ++ [c]) (d :: rest)

/-- Python str.splitlines(keepends=True). -/
def splitKeepEnds (s : List Char) : List (List Char) := splitKeepEndsGo [] s

/-- Worker for splitNoKeep. -/
def splitNoKeepGo (acc : List Char) : List Char → List (List Char)
  | [] => if acc.isEmpty then [] else [acc]
  | [c] => if isLineBreak c then [acc] else [acc ++ [c]]
  | c :: d :: rest =>
    if c = '\r' then
      if d = '\n' then acc :: splitNoKeepGo [] rest
      else acc :: splitNoKeepGo [] (d :: rest)
    else if isLineBreak c then acc :: splitNoKeepGo [] (d :: rest)
    else splitNoKeepGo (acc ++ [c]) (d :: rest)

/-- Python str.splitlines() without keepends. -/
def splitNoKeep (s : List Char) : List (List Char) := splitNoKeepGo [] s

/-- Python `pat in s` for strings: contiguous substring occurrence. -/
def occursSub (pat : List Char) : List Char → Bool
  | [] => pat.isEmpty
  | c :: rest => pat.isPrefixOf (c :: rest) || occursSub pat rest

/-- Python s.replace(old, new, 1): replace the leftmost occurrence only
(call sites guarantee a nonempty old string). -/
def replaceFirst : List Char → List Char → List Char → List Char
  | [], _, _ => []
  | c :: rest, old, new =>
    if old.isPrefixOf (c :: rest) then new ++ (c :: rest).drop old.length
    else c :: replaceFirst rest old new

/-- Python whitespace for str.strip(). -/
def isPyWs (c : Char) : Bool :=
  c == ' ' || c == '\t' || c == '\n' || c == '\r' || c == '\x0b' || c == '\x0c'

/-- Python s.strip(). -/
def pyStrip (s : String) : String :=
  String.mk (((s.data.dropWhile isPyWs).reverse.dropWhile isPyWs).reverse)

/-- Python None test. -/
def isNoneV : JVal → Bool
  | .null => true
  | _ => false

/-- An error result carrying only the error text, as the handlers build
them. -/
def errRes (msg : String) : ToolResult := { ok := false, error := some msg }

/-- A success result carrying only the result text. -/
def okRes (msg : String) : ToolResult := { ok := true, result := some msg }

/-- Python list slice l[start:stop] with nonnegative start and possibly
negative stop. -/
def pySlice {α : Type} (l : List α) (start : Nat) (stop : Int) : List α :=
  let stopN : Nat := if stop < 0 then ((l.length : Int) + stop).toNat else stop.toNat
  (l.take stopN).drop start

/-- The refusal message of Intelligent Mode (lumis.py line 774). -/
def intelligentModeMsg : String :=
  "File > 400KB. Intelligent Mode: Use 'search_file' to locate relevant code, then 'read_file' with start_line/end_line to read specific sections."

/-- Handler of read_file (lumis.py lines 756-796).  The except
UnicodeDecodeError clause is dead code because read_text uses
errors='replace', so it is not modelled. -/
def readFileHandler (env : Env) (call : JVal) : Except PyExc (ToolResult × Env) := do
  let pathV := objGetD call "path" (.str "")
  if !pathV.truthy then return (errRes "No path", env)
  let pstr ← asStrT pathV
  let p := env.resolve pstr
  match lookupFs env.fs p with
  | none => return (errRes ("Not found: " ++ p), env)
  | some (.dir _ _) => return (errRes ("Is directory: " ++ p), env)
  | some (.file f) =>
    let startLine := objGetD call "start_line" .null
    let endLine := objGetD call "end_line" .null
    if f.size > 400000 && isNoneV startLine then
      return (errRes intelligentModeMsg, env)
    if !f.readable then return (errRes ("Permission denied: " ++ p), env)
    let lines := splitKeepEnds f.content
    if !(isNoneV startLine) then
      let sl ← pyInt startLine
      let start : Int := max 0 (sl - 1)
      let stop : Int ←
        (if !(isNoneV endLine) then do
          let el ← pyInt endLine
          pure (min (lines.length : Int) el)
         else pure ((lines.length : Int)))
      if start ≥ (lines.length : Int) then
        return (errRes ("Start line " ++ pyStr startLine ++ " out of range (max " ++
          toString lines.length ++ ")"), env)
      let selected := (pySlice lines start.toNat stop).foldr (· ++ ·) []
      return ({ ok := true, result := some (String.mk selected),
                lines := some (toString (start.toNat + 1) ++ "-" ++ toString stop) }, env)
    else
      if f.size > MAX_FILE_SIZE then
        return ({ ok := true, result := some (String.mk (f.content.take MAX_FILE_SIZE)),
                  truncated := true, size := some f.size }, env)
      return (okRes (String.mk f.content), env)

/-- Handler of write_file (lumis.py lines 798-812).  Parent-directory
creation is implicit in the flat path-keyed filesystem; writing onto a
directory raises IsADirectoryError, an OSError. -/
def writeFileHandler (env : Env) (call : JVal) : Except PyExc (ToolResult × Env) := do
  let pathV := objGetD call "path" (.str "")
  if !pathV.truthy then return (errRes "No path", env)
  let contentV := objGetD call "content" .null
  if isNoneV contentV then return (errRes "No content", env)
  let pstr ← asStrT pathV
  let p := env.resolve pstr
  let text := pyStr contentV
  match lookupFs env.fs p with
  | some (.dir _ _) => return (errRes "Write failed: is a directory", env)
  | some (.file f) =>
    if !f.writable then return (errRes ("Permission denied: " ++ p), env)
    return (okRes ("Written: " ++ p ++ " (" ++ toString text.length ++ " bytes)"),
      { env with fs := storeFs env.fs p (.file { content := text.data, size := text.data.length }) })
  | none =>
    return (okRes ("Written: " ++ p ++ " (" ++ toString text.length ++ " bytes)"),
      { env with fs := storeFs env.fs p (.file { content := text.data, size := text.data.length }) })

/-- One {find, replace} step of edit_file (lumis.py lines 828-834):
non-dict edits are skipped, a falsy find is skipped, a truthy non-string
find raises TypeError at `find in content`, and a hit replaces the first
occurrence and counts one change. -/
def editStep (st : List Char × Nat) (e : JVal) : Except PyExc (List Char × Nat) :=
  match e with
  | .obj _ =>
    let findV := objGetD e "find" (.str "")
    if !findV.truthy then pure st
    else do
      let find ← asStrT findV
      if occursSub find.data st.1 then
        pure (replaceFirst st.1 find.data (pyStr (objGetD e "replace" (.str ""))).data, st.2 + 1)
      else pure st
  | _ => pure st

/-- Handler of edit_file (lumis.py lines 814-841).  read_text on a
directory raises IsADirectoryError, which only the blanket handler in
execute_tool catches. -/
def editFileHandler (env : Env) (call : JVal) : Except PyExc (ToolResult × Env) := do
  let pathV := objGetD call "path" (.str "")
  if !pathV.truthy then return (errRes "No path", env)
  let pstr ← asStrT pathV
  let p := env.resolve pstr
  match lookupFs env.fs p with
  | none => return (errRes ("Not found: " ++ p), env)
  | some node =>
    let editsV := objGetD call "edits" (.arr [])
    if !editsV.truthy then return (errRes "No edits", env)
    match node with
    | .dir _ _ => .error (.osError ("Is a directory: " ++ p))
    | .file f =>
      if !f.readable then return (errRes ("Permission denied: " ++ p), env)
      let edits ← asIterable editsV
      let res ← edits.foldlM editStep (f.content, 0)
      if res.2 == 0 then return (errRes "No matches found", env)
      if !f.writable then return (errRes ("Permission denied: " ++ p), env)
      return (okRes ("Edited: " ++ p ++ " (" ++ toString res.2 ++ " changes)"),
        { env with fs := storeFs env.fs p (.file { f with content := res.1, size := res.1.length }) })

/-- Trailing-newline normalization of a truthy patch content string
(lumis.py lines 865-866). -/
def normalize_pcontent (s : String) : String :=
  if s.data.getLast? == some '\n' then s else s ++ "\n"

/-- The sort key x.get("line", 0) of a patch (lumis.py line 859), read off
an integer-valued line field. -/
def patchKey (p : JVal) : Int :=
  match objGetD p "line" (.num 0) with
  | .num n => n
  | _ => 0

/-- Validation implicit in sorted(patches, key=...): every element must be
a dict (.get on anything else raises AttributeError), and the line keys
must be numbers (non-number keys either fail Python's sort comparison or
the later `line - 1` with TypeError; the model raises at the sort). -/
def checkSortable : List JVal → Except PyExc Unit
  | [] => .ok ()
  | p :: rest =>
    match p with
    | .obj _ =>
      match objGetD p "line" (.num 0) with
      | .num _ => checkSortable rest
      | _ => .error .typeError
    | _ => .error .attributeError

/-- sorted(patches, key=lambda x: x.get("line", 0), reverse=True): Python's
stable sort in descending key order (lumis.py line 859), modelled by a
stable insertion sort (ties keep their original relative order, as in
Python). -/
def sortPatches (ps : List JVal) : List JVal :=
  ps.insertionSort (fun a b => patchKey b ≤ patchKey a)

/-- Convert a patch content value to a stored line.  A non-string value
cannot be joined by "".join at write time, so storing one raises the
join's TypeError (no filesystem write has happened at that point). -/
def toLineChars : JVal → Except PyExc (List Char)
  | .str s => .ok s.data
  | _ => .error .typeError

/-- The pcontent computation of one patch (lumis.py lines 864-866): a
truthy value must be a string (otherwise .endswith raises AttributeError)
and is normalized to end with a newline; a falsy value passes through. -/
def patchContent (patch : JVal) : Except PyExc JVal :=
  if (objGetD patch "content" (.str "")).truthy then do
    let s ← asStrA (objGetD patch "content" (.str ""))
    pure (JVal.str (normalize_pcontent s))
  else pure (objGetD patch "content" (.str ""))

/-- One patch application step (lumis.py lines 861-883). -/
def patchStep (st : List (List Char) × Nat) (patch : JVal) :
    Except PyExc (List (List Char) × Nat) := do
  let lines := st.1
  let changes := st.2
  let ln ← asNum (objGetD patch "line" (.num 0))
  let line_num : Int := ln - 1
  let action := objGetD patch "action" (.str "replace")
  let pcontentV ← patchContent patch
  if isStrV action "delete" then
    if 0 ≤ line_num ∧ line_num < (lines.length : Int) then
      pure (lines.eraseIdx line_num.toNat, changes + 1)
    else pure (lines, changes)
  else if 0 ≤ line_num ∧ line_num < (lines.length : Int) then
    if isStrV action "replace" then do
      let c ← toLineChars pcontentV
      pure (lines.set line_num.toNat c, changes + 1)
    else if isStrV action "insert_after" then do
      let c ← toLineChars pcontentV
      pure (lines.insertIdx (line_num.toNat + 1) c, changes + 1)
    else if isStrV action "insert_before" then do
      let c ← toLineChars pcontentV
      pure (lines.insertIdx line_num.toNat c, changes + 1)
    else pure (lines, changes)
  else if (isStrV action "insert_after" || isStrV action "insert_before") ∧
      line_num = (lines.length : Int) then do
    let c ← toLineChars pcontentV
    pure (lines ++ [c], changes + 1)
  else pure (lines, changes)

/-- The pre-pass of patch_file (lumis.py lines 857-858): give the final
line a trailing newline if it lacks one. -/
def fixLastLine (lines : List (List Char)) : List (List Char) :=
  match lines.getLast? with
  | none => lines
  | some l => if l.getLast? == some '\n' then lines else lines.dropLast ++ [l ++ ['\n']]

/-- Handler of patch_file (lumis.py lines 843-888). -/
def patchFileHandler (env : Env) (call : JVal) : Except PyExc (ToolResult × Env) := do
  let pathV := objGetD call "path" (.str "")
  if !pathV.truthy then return (errRes "No path", env)
  let pstr ← asStrT pathV
  let p := env.resolve pstr
  match lookupFs env.fs p with
  | none => return (errRes ("Not found: " ++ p), env)
  | some node =>
    let patchesV := objGetD call "patches" (.arr [])
    if !patchesV.truthy then return (errRes "No patches", env)
    match node with
    | .dir _ _ => .error (.osError ("Is a directory: " ++ p))
    | .file f =>
      if !f.readable then return (errRes ("Permission denied: " ++ p), env)
      let lines0 := fixLastLine (splitKeepEnds f.content)
      let patches ← asIterable patchesV
      checkSortable patches
      let res ← (sortPatches patches).foldlM patchStep (lines0, 0)
      let newContent := res.1.foldr (· ++ ·) []
      if !f.writable then return (errRes ("Permission denied: " ++ p), env)
      return (okRes ("Patched: " ++ p ++ " (" ++ toString res.2 ++ " changes)"),
        { env with fs := storeFs env.fs p (.file { f with content := newContent, size := newContent.length }) })

/-- Handler of run_command (lumis.py lines 890-904).  A failing command is
reported via ok=false and the exit code; no error field is attached. -/
def runCommandHandler (env : Env) (call : JVal) : Except PyExc (ToolResult × Env) := do
  let cmdV := objGetD call "command" (.str "")
  if !cmdV.truthy then return (errRes "No command", env)
  let t ← asNum (objGetD call "timeout" (.num 60))
  let timeout := min t 120
  let cmd ← asStrT cmdV
  match env.shell cmd timeout with
  | .completed out exitCode =>
    let output := pyStrip out
    let output :=
      if output.length > 10000 then String.mk (output.data.take 10000) ++ "\n... (truncated)"
      else output
    return ({ ok := exitCode == 0,
              result := some (if output.isEmpty then "(no output)" else output),
              code := some exitCode }, env)
  | .timedOut => return (errRes ("Timeout (" ++ toString timeout ++ "s)"), env)
  | .launchFailed m => return (errRes ("Command failed: " ++ m), env)

/-- Sort order of directory entries: (not is_dir, name.lower()) ascending
(lumis.py line 918). -/
def entryLe (a b : String × FsNode) : Bool :=
  let da : Bool := match a.2 with | .dir _ _ => false | _ => true
  let db : Bool := match b.2 with | .dir _ _ => false | _ => true
  if da == db then strLeKey a.1.toLower b.1.toLower else !da

/-- Entry icon (the literal appears in the source in its mojibake form). -/
def nodeIcon : FsNode → String
  | .dir _ _ => "ğŸ“"
  | _ => "  "

/-- Warning line appended on a PermissionError from iterdir. -/
def permWarn : String := "âš  (permission denied)"

/-- The walk of list_dir (lumis.py lines 914-926), fueled to please the
termination checker; the fuel is chosen far above the depth*entries caps of
the walk, so it never runs out first. -/
def walkGo : Nat → List (String × FsNode) → Int → Int → String → List String
  | 0, _, _, _, _ => []
  | _, [], _, _, _ => []
  | fuel + 1, (name, nd) :: rest, currentDepth, depth, pre =>
    let item := pre ++ nodeIcon nd ++ " " ++ name
    let sub :=
      match nd with
      | .dir listable children =>
        if currentDepth < depth then
          if !listable then [(pre ++ "  ") ++ permWarn]
          else walkGo fuel (((children.insertionSort (fun a b => entryLe a b = true)).take 100)) (currentDepth + 1) depth (pre ++ "  ")
        else []
      | _ => []
    item :: (sub ++ walkGo fuel rest currentDepth depth pre)

/-- Handler of list_dir (lumis.py lines 906-927). -/
def listDirHandler (env : Env) (call : JVal) : Except PyExc (ToolResult × Env) := do
  let pathV := objGetD call "path" (.str "")
  let pstr ← (if pathV.truthy then asStrT pathV else pure ".")
  let p := env.resolve pstr
  match lookupFs env.fs p with
  | none => return (errRes ("Not found: " ++ p), env)
  | some (.file _) => return (errRes ("Not a directory: " ++ p), env)
  | some (.dir listable children) =>
    let d ← asNum (objGetD call "depth" (.num 1))
    let depth := min d 3
    let items :=
      if (1 : Int) > depth then []
      else if !listable then [permWarn]
      else walkGo 2000000 (((children.insertionSort (fun a b => entryLe a b = true)).take 100)) 1 depth ""
    let out := joinSep "\n" (items.take 200)
    return (okRes (if out.isEmpty then "(empty)" else out), env)

/-- Collect "lineno: line(truncated to 120 chars)" for case-insensitive
substring matches (lumis.py lines 943-947). -/
def searchLines (pat : List Char) : List (List Char) → Nat → List String
  | [], _ => []
  | l :: rest, i =>
    (if occursSub pat (l.map Char.toLower) then [toString i ++ ": " ++ String.mk (l.take 120)]
     else []) ++ searchLines pat rest (i + 1)

/-- Handler of search_file (lumis.py lines 929-950). -/
def searchFileHandler (env : Env) (call : JVal) : Except PyExc (ToolResult × Env) := do
  let pathV := objGetD call "path" (.str "")
  if !pathV.truthy then return (errRes "No path", env)
  let pstr ← asStrT pathV
  let p := env.resolve pstr
  match lookupFs env.fs p with
  | none => return (errRes ("Not found: " ++ p), env)
  | some node =>
    let patternV := objGetD call "pattern" (.str "")
    if !patternV.truthy then return (errRes "No pattern", env)
    match node with
    | .dir _ _ => .error (.osError ("Is a directory: " ++ p))
    | .file f =>
      if !f.readable then return (errRes ("Permission denied: " ++ p), env)
      let pat ← asStrA patternV
      let ms := searchLines pat.toLower.data (splitNoKeep f.content) 1
      if ms.isEmpty then return (okRes "No matches", env)
      return (okRes (joinSep "\n" (ms.take 50)), env)

/-- Handler of delete_file (lumis.py lines 952-964). -/
def deleteFileHandler (env : Env) (call : JVal) : Except PyExc (ToolResult × Env) := do
  let pathV := objGetD call "path" (.str "")
  if !pathV.truthy then return (errRes "No path", env)
  let pstr ← asStrT pathV
  let p := env.resolve pstr
  match lookupFs env.fs p with
  | none => return (errRes ("Not found: " ++ p), env)
  | some (.dir _ _) => return (errRes "Cannot delete directory", env)
  | some (.file f) =>
    if !f.writable then return (errRes ("Permission denied: " ++ p), env)
    return (okRes ("Deleted: " ++ p), { env with fs := removeFs env.fs p })

/-- Mark one task done for one index of todo "check" (lumis.py lines
1155-1158). -/
def setDone (ts : List TodoItem) (j : Nat) : List TodoItem :=
  match ts, j with
  | [], _ => []
  | t :: rest, 0 => { t with done := true } :: rest
  | t :: rest, k + 1 => t :: setDone rest k

/-- One index of todo "check": the `0 < idx` comparison raises TypeError on
non-numbers; in-range 1-based indices mark tasks done and count. -/
def checkStep (st : List TodoItem × Nat) (idx : JVal) :
    Except PyExc (List TodoItem × Nat) := do
  let i ← asNum idx
  if 0 < i ∧ i ≤ (st.1.length : Int) then
    pure (setDone st.1 (i - 1).toNat, st.2 + 1)
  else pure st

/-- Model of `todo_tool` (lumis.py lines 1135-1172); rendering side effects
on the terminal are not modelled. -/
def todo_tool (env : Env) (action tasks indices title : JVal) :
    Except PyExc (ToolResult × Env) := do
  if isStrV action "create" then
    if !tasks.truthy then return (errRes "No tasks provided", env)
    let sliced ← pySliceTake 8 tasks
    let ts ← asIterable sliced
    let items := ts.map (fun t => TodoItem.mk t false)
    let titleV := if title.truthy then title else .str "Task Plan"
    return (okRes ("Created TODO with " ++ toString items.length ++ " tasks"),
      { env with todo := some ⟨titleV, items⟩ })
  else if isStrV action "check" then
    match env.todo with
    | none => return (errRes "No TODO list exists", env)
    | some td =>
      if !indices.truthy then return (errRes "No indices provided", env)
      let idxs ← asIterable indices
      let res ← idxs.foldlM checkStep (td.tasks, 0)
      return (okRes ("Checked off " ++ toString res.2 ++ " task(s)"),
        { env with todo := some ⟨td.title, res.1⟩ })
  else if isStrV action "show" then
    match env.todo with
    | none => return (okRes "No TODO list", env)
    | some _ => return (okRes "Displayed TODO", env)
  else if isStrV action "clear" then
    return (okRes "Cleared TODO list", { env with todo := none })
  else
    return (errRes ("Unknown action: " ++ pyStr action), env)

/-- Model of `_execute_tool_inner` (lumis.py lines 752-973): dispatch on
the tool name; an unknown name yields an error result. -/
def _execute_tool_inner (env : Env) (tool : JVal) (call : JVal) :
    Except PyExc (ToolResult × Env) :=
  if isStrV tool "read_file" then readFileHandler env call
  else if isStrV tool "write_file" then writeFileHandler env call
  else if isStrV tool "edit_file" then editFileHandler env call
  else if isStrV tool "patch_file" then patchFileHandler env call
  else if isStrV tool "run_command" then runCommandHandler env call
  else if isStrV tool "list_dir" then listDirHandler env call
  else if isStrV tool "search_file" then searchFileHandler env call
  else if isStrV tool "delete_file" then deleteFileHandler env call
  else if isStrV tool "todo" then
    todo_tool env (objGetD call "action" (.str "")) (objGetD call "tasks" (.arr []))
      (objGetD call "indices" (.arr [])) (objGetD call "title" (.str ""))
  else .ok ({ ok := false, error := some ("Unknown tool: " ++ pyStr tool) }, env)

/-- Model of `permission_prompt` (lumis.py lines 285-295): the trust latch
short-circuits; otherwise the user's choice decides, and "Trust" latches
the session-wide flag. -/
def permission_prompt (env : Env) (action : String) (target : String) : Bool × Env :=
  if env.trust then (true, env)
  else
    match env.choose action target with
    | .trustAll => (true, { env with trust := true })
    | .yes => (true, env)
    | .no => (false, env)

/-- The destructive tools guarded by the permission gate (lumis.py line
738). -/
def destructiveTool (tool : JVal) : Bool :=
  isStrV tool "delete_file" || isStrV tool "write_file" || isStrV tool "edit_file" ||
    isStrV tool "patch_file" || isStrV tool "run_command"

/-- The prompt target `path or call.get("command", "")[:60]` (lumis.py line
740).  This expression runs before the try/except, so its exceptions
escape execute_tool. -/
def promptTarget (call : JVal) : Except PyExc JVal :=
  let pathV := objGetD call "path" (.str "")
  if pathV.truthy then .ok pathV
  else pySliceTake 60 (objGetD call "command" (.str ""))

/-- Model of `execute_tool` (lumis.py lines 726-750): isinstance check,
permission gate for destructive tools, and the blanket try/except that
converts handler exceptions into error results.  The gate's target
expression runs outside the try, so its exceptions propagate. -/
def execute_tool (env : Env) (call : JVal) : Except PyExc (ToolResult × Env) :=
  match call with
  | .obj _ =>
    let tool := objGetD call "tool" (.str "")
    if destructiveTool tool then
      match promptTarget call with
      | .error e => .error e
      | .ok target =>
        match permission_prompt env (pyStr tool) (pyStr target) with
        | (false, env') =>
          .ok ({ ok := false, error := some "Denied by user", tool := some (pyStr tool) }, env')
        | (true, env') =>
          match _execute_tool_inner env' tool call with
          | .ok r => .ok r
          | .error e =>
            .ok ({ ok := false, error := some e.toMessage, tool := some (pyStr tool) }, env')
    else
      match _execute_tool_inner env tool call with
      | .ok r => .ok r
      | .error e =>
        .ok ({ ok := false, error := some e.toMessage, tool := some (pyStr tool) }, env)
  | _ => .ok ({ ok := false, error := some "Invalid tool format" }, env)

/-- A conversation message. -/
structure Message where
  role : String
  content : String
deriving DecidableEq

/-- Model of `trim_context` (lumis.py lines 1081-1089): under the cap the
conversation is untouched; over it, all system messages are kept followed
by the most recent max(cap - system_count, 2) non-system messages. -/
def trim_context (messages : List Message) (max_msgs : Nat := MAX_CONTEXT_MESSAGES) :
    List Message :=
  if messages.length ≤ max_msgs then messages
  else
    let system := messages.filter (fun m => m.role == "system")
    let others := messages.filter (fun m => m.role != "system")
    let keep := max (max_msgs - system.length) 2
    system ++ others.drop (others.length - keep)

/-- Outcome of one `chat` call as the agent loop consumes it. -/
structure ChatResult where
  ok : Bool
  content : String := ""
  error : String := ""

/-- Format one tool outcome for the synthetic results turn (lumis.py lines
1300-1303): the error text defaults to "Failed" when the result carries no
error field. -/
def toolResultLine (toolName : String) (r : ToolResult) : String :=
  if r.ok then "[" ++ toolName ++ "] Success:\n" ++ r.result.getD ""
  else "[" ++ toolName ++ "] Error: " ++ r.error.getD "Failed"

/-- Execute the extracted tools sequentially, collecting their formatted
outcome lines (lumis.py lines 1284-1303); an exception escaping
execute_tool propagates out of the loop. -/
def runTools (env : Env) : List JVal → Except PyExc (List String × Env)
  | [] => .ok ([], env)
  | call :: rest => do
    let toolName := pyStr (objGetD call "tool" (.str "action"))
    let r ← execute_tool env call
    let res ← runTools r.2 rest
    .ok (toolResultLine toolName r.1 :: res.1, res.2)

/-- Model of `agent_loop` (lumis.py lines 1257-1327): `chatFn` stands for
`chat(messages, settings)`; the fuel counts the remaining iterations of
the range(MAX_TOOL_LOOPS) loop, whose exhaustion returns the current
conversation. -/
def agent_loop_go (chatFn : List Message → ChatResult) :
    Nat → List Message → Env → Except PyExc (List Message × Env)
  | 0, messages, env => .ok (messages, env)
  | n + 1, messages, env =>
    let trimmed := trim_context messages
    let result := chatFn trimmed
    if !result.ok then .ok (trimmed, env)
    else
      let response := result.content
      let tools := extract_tool_calls response
      if tools.isEmpty then .ok (trimmed ++ [⟨"assistant", response⟩], env)
      else
        match runTools env tools with
        | .error e => .error e
        | .ok (lines, env') =>
          agent_loop_go chatFn n
            (trimmed ++ [⟨"assistant", response⟩,
                         ⟨"user", "Tool results:\n" ++ joinSep "\n\n" lines⟩]) env'

/-- Entry point of the agent loop with its iteration cap. -/
def agent_loop (chatFn : List Message → ChatResult) (messages : List Message) (env : Env) :
    Except PyExc (List Message × Env) :=
  agent_loop_go chatFn MAX_TOOL_LOOPS messages env

/-- Outcome of one HTTP POST to the completion endpoint with one
credential: a response with a status and a parsed-or-malformed body, a
timeout, a connection failure, or another exception from the request. -/
inductive HttpOutcome where
  | response (status : Nat) (body : Option JVal)
  | timeout
  | connError
  | exc (msg : String)

/-- Result of the backend client (elapsed time and the token estimate are
timing/display data and are not modelled). -/
inductive PoeResult where
  | success (content : JVal) (model : String)
  | failure (error : String)

/-- Python `d.get(k)`: AttributeError on non-dicts, None when missing. -/
def pyGetRaise : JVal → String → Except PyExc JVal
  | .obj fields, k => .ok ((lookupField fields k).getD .null)
  | _, _ => .error .attributeError

/-- Python `d.get(k, dflt)`: AttributeError on non-dicts. -/
def pyGetDefRaise : JVal → String → JVal → Except PyExc JVal
  | .obj fields, k, dflt => .ok ((lookupField fields k).getD dflt)
  | _, _, _ => .error .attributeError

/-- Python `v[0]`: lists and strings index (IndexError when empty), dicts
raise KeyError for the integer key, other values raise TypeError. -/
def pyIndex0 : JVal → Except PyExc JVal
  | .arr [] => .error .indexError
  | .arr (x :: _) => .ok x
  | .str s =>
    match s.data with
    | [] => .error .indexError
    | c :: _ => .ok (.str (String.mk [c]))
  | .obj _ => .error .keyError
  | _ => .error .typeError

/-- The message-content extraction inside the per-credential try (lumis.py
lines 1050-1054), with the exceptions Python would raise on degenerate
bodies. -/
def poeInnerTry (data : JVal) : Except PyExc (Option JVal) := do
  let choicesV ← pyGetRaise data "choices"
  if choicesV.truthy then do
    let first ← pyIndex0 choicesV
    let msg ← pyGetDefRaise first "message" (.obj [])
    let content ← pyGetDefRaise msg "content" (.str "")
    pure (some content)
  else pure none

/-- One credential attempt: either a success content or the error string
recorded for this credential. -/
inductive AttemptRes where
  | success (content : JVal)
  | recorded (err : String)

/-- The "Key i+1: " prefix of the per-credential error strings. -/
def keyTag (i : Nat) : String := "Key " ++ toString (i + 1) ++ ": "

/-- Evaluate credential i's attempt against its HTTP outcome (lumis.py
lines 1042-1067): requests' r.ok is status < 400; a JSON decode failure or
a KeyError/IndexError during extraction records "Malformed JSON"; a truthy
choices value whose extraction yields no exception succeeds; any other
exception is recorded by the outer blanket except. -/
def attempt (i : Nat) (o : HttpOutcome) : AttemptRes :=
  match o with
  | .timeout => .recorded (keyTag i ++ "Timeout")
  | .connError => .recorded (keyTag i ++ "Connection failed")
  | .exc m => .recorded (keyTag i ++ m)
  | .response status body =>
    if status < 400 then
      match body with
      | none => .recorded (keyTag i ++ "Malformed JSON")
      | some data =>
        match poeInnerTry data with
        | .ok (some content) => .success content
        | .ok none => .recorded (keyTag i ++ "Invalid response format")
        | .error e =>
          if e = .keyError ∨ e = .indexError then .recorded (keyTag i ++ "Malformed JSON")
          else .recorded (keyTag i ++ e.toMessage)
    else .recorded (keyTag i ++ "HTTP " ++ toString status)

/-- The credential loop of `chat_poe` (lumis.py lines 1039-1073),
instrumented to also return the recorded per-credential error strings; the
surfaced failure joins the last three.  The fixed sleeps are timing-only
and not modelled. -/
def chat_poe_loop (http : Nat → HttpOutcome) (model : String) :
    Nat → Nat → List String → PoeResult × List String
  | _, 0, errors =>
    (.failure (if errors.isEmpty then "All keys exhausted"
               else joinSep "; " (errors.drop (errors.length - 3))), errors)
  | i, remaining + 1, errors =>
    match attempt i (http i) with
    | .success c => (.success c model, errors)
    | .recorded e => chat_poe_loop http model (i + 1) remaining (errors ++ [e])

/-- Model of `chat_poe`'s credential handling (lumis.py lines 1010-1073):
the loaded keys, the per-key HTTP outcome, and the resolved model name.
The in-place augmentation of the outgoing user message (lines 1020-1037)
rewrites request text only and does not affect the credential loop. -/
def chat_poe (keys : List String) (http : Nat → HttpOutcome) (model : String) :
    PoeResult × List String :=
  if keys.isEmpty then (.failure "No API keys configured", [])
  else chat_poe_loop http model 0 keys.length []

/-- Object test, mirroring Python isinstance(v, dict). -/
def isObjV : JVal → Bool
  | .obj _ => true
  | _ => false

/-- The environment update common to the writing handlers: store the
rewritten file at a resolved path. -/
def rewrittenEnv (env : Env) (p : String) (f : FileData) (c : List Char) : Env :=
  { env with fs := storeFs env.fs p (.file { f with content := c, size := c.length }) }

/-- Over 400,000 bytes, a whole-file read is refused with the Intelligent
Mode error (lumis.py lines 771-775); the refusal covers every file of
exactly 500,001 bytes read without a line range. -/
theorem read_file_refusal
    (env : Env) (call : JVal) (path : String) (f : FileData)
    (hpath : objGetD call "path" (.str "") = .str path) (hne : path ≠ "")
    (hfs : lookupFs env.fs (env.resolve path) = some (.file f))
    (hsize : f.size = 500001)
    (hstart : objGetD call "start_line" .null = .null) :
    readFileHandler env call = .ok (errRes intelligentModeMsg, env) := by
  have hmt : path.isEmpty = false := by
    cases hh : path.isEmpty
    · rfl
    · exact absurd ((String.isEmpty_iff path).mp hh) hne
  simp only [readFileHandler, hpath, hstart, JVal.truthy, hmt, Bool.not_false, if_true,
    asStrT, isNoneV, Bind.bind, Except.bind]
  rw [hfs]
  simp [hsize]
  rfl

/-- The truncated branch of read_file (lumis.py lines 789-790) is dead
code: a whole-file read past 500,000 bytes is already refused by the
400,000-byte check, and a line-range read returns before the branch. -/
theorem read_file_truncated_dead
    (env : Env) (call : JVal) (r : ToolResult) (env' : Env)
    (h : readFileHandler env call = .ok (r, env')) : r.truncated = false := by
  unfold readFileHandler at h
  simp only [Bind.bind, Except.bind, pure, Except.pure] at h
  repeat' split at h
  all_goals (simp only [Except.ok.injEq, Prod.mk.injEq, reduceCtorEq] at h)
  all_goals (try (obtain ⟨rfl, rfl⟩ := h; rfl))
  exfalso
  rename_i x1 v1 heq1 x2 f1 heq2 hsize400 hread hnone hbig
  have h1 : isNoneV (objGetD call "start_line" JVal.null) = true := by
    cases hh : isNoneV (objGetD call "start_line" JVal.null) <;> simp [hh] at hnone ⊢
  rw [h1, Bool.and_true] at hsize400
  have h2 : ¬ (f1.size > 400000) := by simpa using hsize400
  unfold MAX_FILE_SIZE at hbig
  omega

/-- The 500,001-byte file of the C1 scenario. -/
def fileC1 : FileData := { content := List.replicate 500001 'a', size := 500001 }

/-- Environment holding the C1 file at path f. -/
def envC1 : Env :=
  { fs := [("f", .file fileC1)], resolve := fun s => s,
    shell := fun _ _ => .completed "" 0, choose := fun _ _ => .no,
    trust := false, todo := none }

/-- The C1 read_file call with no line range. -/
def callC1 : JVal := .obj [("tool", .str "read_file"), ("path", .str "f")]

/-- C1 counterexample: on a regular readable text file of exactly 500,001
bytes with no start_line/end_line, execute_tool returns ok=false with the
Intelligent Mode refusal (and truncated=false), not ok=true with
truncated=true and the first 500,000 bytes as the claim states. -/
theorem C1_read_file_500001_counterexample :
    execute_tool envC1 callC1 = .ok (errRes intelligentModeMsg, envC1) ∧
    (errRes intelligentModeMsg).ok = false ∧
    (errRes intelligentModeMsg).truncated = false ∧
    fileC1.size = 500001 ∧ fileC1.content.length = 500001 :=
  ⟨rfl, rfl, rfl, rfl, List.length_replicate 500001 'a'⟩

/-- C1 amended: read_file on a file of exactly 500,001 bytes with no line
range is refused with ok=false and the File > 400KB Intelligent Mode error;
moreover no read_file result ever carries truncated=true (that branch is
dead code). -/
theorem C1_read_file_oversize_refusal :
    (∀ (env : Env) (call : JVal) (path : String) (f : FileData),
      objGetD call "path" (.str "") = .str path → path ≠ "" →
      lookupFs env.fs (env.resolve path) = some (.file f) →
      f.size = 500001 →
      objGetD call "start_line" .null = .null →
      readFileHandler env call = .ok (errRes intelligentModeMsg, env)) ∧
    (∀ (env : Env) (call : JVal) (r : ToolResult) (env' : Env),
      readFileHandler env call = .ok (r, env') → r.truncated = false) :=
  ⟨read_file_refusal, read_file_truncated_dead⟩

/-- Witness for C1: the amended theorem applied to the concrete 500,001-byte
file. -/
theorem C1_read_file_oversize_refusal_witness :
    readFileHandler envC1 callC1 = .ok (errRes intelligentModeMsg, envC1) ∧
    (errRes intelligentModeMsg).truncated = false :=
  ⟨C1_read_file_oversize_refusal.1 envC1 callC1 "f" fileC1 rfl (by decide) rfl rfl rfl,
   C1_read_file_oversize_refusal.2 envC1 callC1 _ _
     (C1_read_file_oversize_refusal.1 envC1 callC1 "f" fileC1 rfl (by decide) rfl rfl rfl)⟩

/-- Environment for the C2 failing input. -/
def envC2 : Env :=
  { fs := [], resolve := fun s => s, shell := fun _ _ => .completed "" 0,
    choose := fun _ _ => .no, trust := false, todo := none }

/-- The C2 failing input: a run_command call whose command value is the
integer 7 and whose path is absent. -/
def callC2 : JVal := .obj [("tool", .str "run_command"), ("command", .num 7)]

/-- C2 code bug: execute_tool evaluates
target = path or call.get("command", "")[:60] before entering its
try/except, so slicing the non-sliceable command value raises TypeError to
the caller, contradicting the never-raises contract. -/
theorem C2_execute_tool_raises_typeerror :
    execute_tool envC2 callC2 = .error .typeError := rfl

/-- C7: trim_context leaves conversations of at most 40 messages unchanged;
above 40 it keeps all system messages followed by the most recent
max(40 - system_count, 2) non-system messages. -/
theorem C7_trim_context_spec (messages : List Message) :
    (messages.length ≤ MAX_CONTEXT_MESSAGES → trim_context messages = messages) ∧
    (messages.length > MAX_CONTEXT_MESSAGES →
      trim_context messages =
        messages.filter (fun m => m.role == "system") ++
          (messages.filter (fun m => m.role != "system")).drop
            ((messages.filter (fun m => m.role != "system")).length -
              max (MAX_CONTEXT_MESSAGES - (messages.filter (fun m => m.role == "system")).length) 2)) := by
  constructor
  · intro h
    simp [trim_context, h]
  · intro h
    rw [trim_context, if_neg (by omega)]

/-- The 1 system + 50 non-system conversation of the C7 scenario. -/
def msgsC7 : List Message :=
  ⟨"system", "s"⟩ :: (List.range 50).map (fun i => ⟨"user", toString i⟩)

/-- Witness for C7: on 1 system + 50 non-system messages the trim keeps the
system message plus the most recent 39 non-system messages. -/
theorem C7_trim_context_spec_witness :
    msgsC7.length > MAX_CONTEXT_MESSAGES ∧
    trim_context msgsC7 =
      ⟨"system", "s"⟩ :: ((List.range 50).drop 11).map (fun i => ⟨"user", toString i⟩) := by
  refine ⟨by decide, ?_⟩
  have h := (C7_trim_context_spec msgsC7).2 (by decide)
  rw [h]
  decide

/-- A denied permission prompt short-circuits execute_tool: the result is
ok=false with error "Denied by user" and the environment (filesystem,
shell state, trust latch, todo list) is returned unchanged, so the
side-effecting handler never ran. -/
theorem denied_gate (env : Env) (call : JVal) (target : JVal)
    (hobj : isObjV call = true)
    (htrust : env.trust = false)
    (hdest : destructiveTool (objGetD call "tool" (.str "")) = true)
    (htarget : promptTarget call = .ok target)
    (hchoose : env.choose (pyStr (objGetD call "tool" (.str ""))) (pyStr target) = .no) :
    execute_tool env call =
      .ok ({ ok := false, error := some "Denied by user",
             tool := some (pyStr (objGetD call "tool" (.str ""))) }, env) := by
  cases call with
  | obj fields =>
    simp only [execute_tool, hdest, htarget, if_true, permission_prompt, htrust,
      Bool.false_eq_true, if_false, hchoose]
  | null => simp [isObjV] at hobj
  | bool b => simp [isObjV] at hobj
  | num n => simp [isObjV] at hobj
  | str s => simp [isObjV] at hobj
  | arr xs => simp [isObjV] at hobj

/-- The model response of the C6 scenario, containing one fenced write_file
tool call. -/
def respC6 : String :=
  "I will write the file.\n```json\n\x7b\"tool\": \"write_file\", \"path\": \"f\", \"content\": \"hi\"\x7d\n```"

/-- A backend returning the tool-calling response first and a plain answer
on the next iteration. -/
def chatC6 : List Message → ChatResult :=
  fun msgs => if msgs.length ≤ 2 then { ok := true, content := respC6 }
              else { ok := true, content := "All done." }

/-- Environment of the C6 scenario: the user denies every prompt. -/
def envC6 : Env :=
  { fs := [("f", .file { content := "old".data, size := 3 })], resolve := fun s => s,
    shell := fun _ _ => .completed "" 0, choose := fun _ _ => .no, trust := false, todo := none }

/-- C6: a denial short-circuits the handler with the Denied-by-user error
and no state change, and the agent loop appends the denial as a
tool-result turn and proceeds to the next iteration: on the concrete
scenario the loop runs a second iteration whose answer is appended, with
the filesystem and trust latch untouched. -/
theorem C6_denial_short_circuit_and_loop_continue :
    (∀ (env : Env) (call : JVal) (target : JVal),
      isObjV call = true → env.trust = false →
      destructiveTool (objGetD call "tool" (.str "")) = true →
      promptTarget call = .ok target →
      env.choose (pyStr (objGetD call "tool" (.str ""))) (pyStr target) = .no →
      execute_tool env call =
        .ok ({ ok := false, error := some "Denied by user",
               tool := some (pyStr (objGetD call "tool" (.str ""))) }, env)) ∧
    agent_loop chatC6 [⟨"system", "sys"⟩, ⟨"user", "hi"⟩] envC6 =
      .ok ([⟨"system", "sys"⟩, ⟨"user", "hi"⟩, ⟨"assistant", respC6⟩,
            ⟨"user", "Tool results:\n[write_file] Error: Denied by user"⟩,
            ⟨"assistant", "All done."⟩], envC6) :=
  ⟨denied_gate, rfl⟩

/-- Witness for C6: the gate conjunct applied to a concrete denied
write_file call. -/
theorem C6_denial_short_circuit_and_loop_continue_witness :
    execute_tool envC6 (.obj [("tool", .str "write_file"), ("path", .str "f"), ("content", .str "hi")]) =
      .ok ({ ok := false, error := some "Denied by user", tool := some "write_file" }, envC6) :=
  C6_denial_short_circuit_and_loop_continue.1 envC6
    (.obj [("tool", .str "write_file"), ("path", .str "f"), ("content", .str "hi")])
    (.str "f") rfl rfl rfl rfl rfl

/-- Declarative specification of applying {find, replace} pairs in list
order, one first-occurrence replacement each, counting the pairs whose find
occurred in the current content. -/
def applyEditsSpec : List (String × String) → List Char → List Char × Nat
  | [], c => (c, 0)
  | (find, repl) :: rest, c =>
    if !find.isEmpty && occursSub find.data c then
      let r := applyEditsSpec rest (replaceFirst c find.data repl.data)
      (r.1, r.2 + 1)
    else applyEditsSpec rest c

/-- A well-formed {find, replace} edit object. -/
def mkEdit (find repl : String) : JVal := .obj [("find", .str find), ("replace", .str repl)]

/-- A list of well-formed edit objects. -/
def mkEdits (pairs : List (String × String)) : List JVal :=
  pairs.map (fun p => mkEdit p.1 p.2)

/-- A well-formed edit_file call. -/
def callEdit (path : String) (pairs : List (String × String)) : JVal :=
  .obj [("path", .str path), ("edits", .arr (mkEdits pairs))]

/-- The edit fold of edit_file refines the declarative specification. -/
theorem editFold_spec (pairs : List (String × String)) :
    ∀ (c : List Char) (n0 : Nat),
      ((mkEdits pairs).foldlM editStep (c, n0) : Except PyExc (List Char × Nat)) =
        .ok ((applyEditsSpec pairs c).1, n0 + (applyEditsSpec pairs c).2) := by
  induction pairs with
  | nil => intro c n0; simp [applyEditsSpec, mkEdits]; rfl
  | cons p rest ih =>
    intro c n0
    obtain ⟨f, r⟩ := p
    simp only [mkEdits, List.map_cons, List.foldlM_cons, editStep, mkEdit, objGetD, lookupField]
    cases hf : f.isEmpty with
    | true =>
      have hthis := ih c n0
      simp only [mkEdits, mkEdit] at hthis
      simp [JVal.truthy, hf, applyEditsSpec, hthis]
    | false =>
      have ht : (JVal.str f).truthy = true := by simp [JVal.truthy, hf]
      cases ho : occursSub f.data c with
      | true =>
        have hthis := ih (replaceFirst c f.data (pyStr (JVal.str r)).data) (n0 + 1)
        simp only [mkEdits, mkEdit, pyStr] at hthis
        simp [ht, asStrT, ho, hf, applyEditsSpec, pyStr, hthis, Bind.bind, Except.bind,
          pure, Except.pure]
        omega
      | false =>
        have hthis := ih c n0
        simp only [mkEdits, mkEdit] at hthis
        simp [ht, asStrT, ho, hf, applyEditsSpec, pyStr, hthis, Bind.bind, Except.bind,
          pure, Except.pure]

/-- The edit_file handler refines applyEditsSpec: it applies the pairs in
list order, fails with "No matches found" exactly when no pair matched,
and otherwise writes the edited content and reports the change count. -/
theorem edit_file_refines (env : Env) (path : String) (f : FileData)
    (pairs : List (String × String))
    (hne : path ≠ "") (hfs : lookupFs env.fs (env.resolve path) = some (.file f))
    (hrd : f.readable = true) (hwr : f.writable = true) (hpairs : pairs ≠ []) :
    editFileHandler env (callEdit path pairs) =
      .ok (if (applyEditsSpec pairs f.content).2 == 0
           then (errRes "No matches found", env)
           else (okRes ("Edited: " ++ env.resolve path ++ " (" ++
                   toString (applyEditsSpec pairs f.content).2 ++ " changes)"),
                 rewrittenEnv env (env.resolve path) f (applyEditsSpec pairs f.content).1)) := by
  have hmt : path.isEmpty = false := by
    cases hh : path.isEmpty
    · rfl
    · exact absurd ((String.isEmpty_iff path).mp hh) hne
  have hmapne : mkEdits pairs ≠ [] := by
    cases pairs with
    | nil => exact absurd rfl hpairs
    | cons a l => simp [mkEdits]
  simp only [editFileHandler, callEdit, objGetD, lookupField]
  simp only [Bind.bind, Except.bind, pure, Except.pure]
  simp [JVal.truthy, hmt, asStrT, hfs, hrd, hwr, hmapne, asIterable,
    editFold_spec pairs f.content 0]
  split
  · rename_i hz
    simp [hz]
  · rename_i hz
    simp [Nat.pos_of_ne_zero hz, rewrittenEnv, hrd, hwr]

/-- Environment of the C9 instance: a file containing "a a". -/
def envC9 : Env :=
  { fs := [("f", .file { content := "a a".data, size := 3 })], resolve := fun s => s,
    shell := fun _ _ => .completed "" 0, choose := fun _ _ => .no, trust := true, todo := none }

/-- C9: edit_file applies each {find, replace} pair in list order as a
single first-occurrence replacement on the current content, counts one
change per pair whose find occurred, succeeds exactly when at least one
pair matched; in particular one edit a→b on "a a" yields "b a" with change
count 1. -/
theorem C9_edit_file_first_occurrence :
    (∀ (env : Env) (path : String) (f : FileData) (pairs : List (String × String)),
      path ≠ "" → lookupFs env.fs (env.resolve path) = some (.file f) →
      f.readable = true → f.writable = true → pairs ≠ [] →
      editFileHandler env (callEdit path pairs) =
        .ok (if (applyEditsSpec pairs f.content).2 == 0
             then (errRes "No matches found", env)
             else (okRes ("Edited: " ++ env.resolve path ++ " (" ++
                     toString (applyEditsSpec pairs f.content).2 ++ " changes)"),
                   rewrittenEnv env (env.resolve path) f (applyEditsSpec pairs f.content).1))) ∧
    editFileHandler envC9 (callEdit "f" [("a", "b")]) =
      .ok (okRes "Edited: f (1 changes)",
           { envC9 with fs := [("f", .file { content := "b a".data, size := 3 })] }) ∧
    applyEditsSpec [("a", "b")] "a a".data = ("b a".data, 1) :=
  ⟨edit_file_refines, rfl, rfl⟩

/-- Witness for C9: the universal conjunct applied to the concrete file and
edit list. -/
theorem C9_edit_file_first_occurrence_witness :
    editFileHandler envC9 (callEdit "f" [("a", "b")]) =
      .ok (if (applyEditsSpec [("a", "b")] ("a a".data : List Char)).2 == 0
           then (errRes "No matches found", envC9)
           else (okRes ("Edited: " ++ envC9.resolve "f" ++ " (" ++
                   toString (applyEditsSpec [("a", "b")] ("a a".data : List Char)).2 ++ " changes)"),
                 rewrittenEnv envC9 (envC9.resolve "f")
                   { content := "a a".data, size := 3 }
                   (applyEditsSpec [("a", "b")] ("a a".data : List Char)).1)) :=
  C9_edit_file_first_occurrence.1 envC9 "f" { content := "a a".data, size := 3 }
    [("a", "b")] (by decide) rfl rfl rfl (by decide)

/-- Two sorted-descending lists with pairwise-distinct keys that are
permutations of each other are equal. -/
theorem sortedDescNodupEq {α : Type} (key : α → Int) :
    ∀ l₁ l₂ : List α, l₁.Perm l₂ →
      l₁.Pairwise (fun a b => key b ≤ key a) →
      l₂.Pairwise (fun a b => key b ≤ key a) →
      (l₁.map key).Nodup → l₁ = l₂ := by
  intro l₁
  induction l₁ with
  | nil =>
    intro l₂ hp _ _ _
    exact (hp.symm.eq_nil).symm
  | cons a t ih =>
    intro l₂ hp hs1 hs2 hnd
    cases l₂ with
    | nil => exact absurd hp.eq_nil (by simp)
    | cons b t₂ =>
      obtain ⟨ha1, hs1t⟩ := List.pairwise_cons.mp hs1
      obtain ⟨hb1, hs2t⟩ := List.pairwise_cons.mp hs2
      have hab : a = b := by
        by_cases heq : a = b
        · exact heq
        · exfalso
          have hamem : a ∈ b :: t₂ := hp.subset (List.mem_cons_self a t)
          have hbmem : b ∈ a :: t := hp.symm.subset (List.mem_cons_self b t₂)
          have hat2 : a ∈ t₂ := by
            cases List.mem_cons.mp hamem with
            | inl h => exact absurd h heq
            | inr h => exact h
          have hbt : b ∈ t := by
            cases List.mem_cons.mp hbmem with
            | inl h => exact absurd h.symm heq
            | inr h => exact h
          have h1 : key a ≤ key b := hb1 a hat2
          have h2 : key b ≤ key a := ha1 b hbt
          have hkey : key a = key b := le_antisymm h1 h2
          have hnd' : (∀ x ∈ t, ¬key x = key a) ∧ (t.map key).Nodup := by simpa using hnd
          exact hnd'.1 b hbt hkey.symm
      subst hab
      have hpt : t.Perm t₂ := hp.cons_inv
      have hndt : (t.map key).Nodup := by
        have hnd' : (∀ x ∈ t, ¬key x = key a) ∧ (t.map key).Nodup := by simpa using hnd
        exact hnd'.2
      rw [ih t₂ hpt hs1t hs2t hndt]

/-- The sort of patch_file is sorted in descending line-key order. -/
theorem sortPatches_sorted (ps : List JVal) :
    (sortPatches ps).Pairwise (fun a b => patchKey b ≤ patchKey a) := by
  haveI : IsTotal JVal (fun a b => patchKey b ≤ patchKey a) :=
    ⟨fun a b => Int.le_total (patchKey b) (patchKey a)⟩
  haveI : IsTrans JVal (fun a b => patchKey b ≤ patchKey a) :=
    ⟨fun a b c hab hbc => le_trans hbc hab⟩
  exact List.sorted_insertionSort _ ps

/-- With pairwise-distinct line keys, the descending sort of patch_file is
the same list for every input order. -/
theorem sortPatches_eq_of_perm (ps ps' : List JVal) (hperm : ps.Perm ps')
    (hnd : (ps.map patchKey).Nodup) : sortPatches ps = sortPatches ps' := by
  apply sortedDescNodupEq patchKey
  · exact (List.perm_insertionSort _ ps).trans (hperm.trans (List.perm_insertionSort _ ps').symm)
  · exact sortPatches_sorted ps
  · exact sortPatches_sorted ps'
  · exact ((List.perm_insertionSort _ ps).map patchKey).nodup_iff.mpr hnd

/-- A well-formed patch_file call. -/
def callPatch (path : String) (ps : List JVal) : JVal :=
  .obj [("path", .str path), ("patches", .arr ps)]

/-- Sortability of the patch list is a property of its members, hence
invariant under permutation. -/
theorem checkSortable_perm (ps ps' : List JVal) (hperm : ps.Perm ps')
    (hok : checkSortable ps = .ok ()) : checkSortable ps' = .ok () := by
  have key : ∀ l : List JVal, checkSortable l = .ok () ↔
      ∀ p ∈ l, isObjV p = true ∧ (match objGetD p "line" (.num 0) with
        | JVal.num _ => true | _ => false) = true := by
    intro l
    induction l with
    | nil => simp [checkSortable]
    | cons p rest ih =>
      cases p with
      | obj fields =>
        cases hline : objGetD (.obj fields) "line" (.num 0) with
        | num n => simp [checkSortable, hline, ih, isObjV]
        | null => simp [checkSortable, hline, isObjV]
        | bool b => simp [checkSortable, hline, isObjV]
        | str s => simp [checkSortable, hline, isObjV]
        | arr xs => simp [checkSortable, hline, isObjV]
        | obj fs => simp [checkSortable, hline, isObjV]
      | null => simp [checkSortable, isObjV]
      | bool b => simp [checkSortable, isObjV]
      | num n => simp [checkSortable, isObjV]
      | str s => simp [checkSortable, isObjV]
      | arr xs => simp [checkSortable, isObjV]
  rw [key] at hok
  rw [key]
  intro p hps
  exact hok p (hperm.symm.subset hps)

/-- patch_file is insensitive to the order the patches are given in, as
long as the line keys are pairwise distinct: the handler sorts them into
descending order before applying. -/
theorem patch_file_order_independent (env : Env) (path : String) (ps ps' : List JVal)
    (hperm : ps.Perm ps') (hnd : (ps.map patchKey).Nodup) (hok : checkSortable ps = .ok ()) :
    patchFileHandler env (callPatch path ps) = patchFileHandler env (callPatch path ps') := by
  have hlen : ps.length = ps'.length := hperm.length_eq
  have hne : ps.isEmpty = ps'.isEmpty := by
    cases ps <;> cases ps' <;> simp_all
  have hok' := checkSortable_perm ps ps' hperm hok
  have hsort := sortPatches_eq_of_perm ps ps' hperm hnd
  simp [patchFileHandler, callPatch, objGetD, lookupField, JVal.truthy, asIterable,
    Bind.bind, Except.bind, pure, Except.pure, hne, hok, hok', hsort]
  rw [hne]

/-- Every nonempty patch content is normalized to end with a newline
(lumis.py lines 865-866). -/
theorem normalize_pcontent_ends_nl (s : String) :
    s ≠ "" → (normalize_pcontent s).data.getLast? = some '\n' := by
  intro _
  unfold normalize_pcontent
  split
  · rename_i hh
    exact eq_of_beq hh
  · show (s ++ "\n").data.getLast? = some '\n'
    have h2 : (s ++ "\n").data = s.data ++ ['\n'] := by
      simp [String.data_append]
    rw [h2]
    exact List.getLast?_concat _

/-- Environment of the C8 instance: a file containing three lines. -/
def envC8 : Env :=
  { fs := [("f", .file { content := "a\nb\nc\n".data, size := 6 })], resolve := fun s => s,
    shell := fun _ _ => .completed "" 0, choose := fun _ _ => .no, trust := true, todo := none }

/-- The C8 patch list, deliberately given in ascending text order. -/
def patchesC8 : List JVal :=
  [.obj [("line", .num 2), ("action", .str "delete")],
   .obj [("line", .num 1), ("action", .str "replace"), ("content", .str "X")]]

/-- C8: patch_file applies patches in descending line order regardless of
the given order (for distinct line keys the outcome is invariant under
permutation of the patch list), every nonempty replaced or inserted
content line is normalized to end with a newline, and the concrete
delete-line-2 / replace-line-1 instance on a b c yields X c. -/
theorem C8_patch_file_descending_order :
    (∀ (env : Env) (path : String) (ps ps' : List JVal),
      ps.Perm ps' → (ps.map patchKey).Nodup → checkSortable ps = .ok () →
      patchFileHandler env (callPatch path ps) = patchFileHandler env (callPatch path ps')) ∧
    (∀ s : String, s ≠ "" → (normalize_pcontent s).data.getLast? = some '\n') ∧
    patchFileHandler envC8 (callPatch "f" patchesC8) =
      .ok (okRes "Patched: f (2 changes)",
           { envC8 with fs := [("f", .file { content := "X\nc\n".data, size := 4 })] }) :=
  ⟨patch_file_order_independent, normalize_pcontent_ends_nl, rfl⟩

/-- Witness for C8: the order-independence conjunct applied to the concrete
patch list and its reversal. -/
theorem C8_patch_file_descending_order_witness :
    patchFileHandler envC8 (callPatch "f" patchesC8) =
      patchFileHandler envC8 (callPatch "f" patchesC8.reverse) :=
  C8_patch_file_descending_order.1 envC8 "f" patchesC8 patchesC8.reverse
    (by simp [patchesC8]; exact List.Perm.swap _ _ _) (by decide) rfl

/-- Invariant of the patched line buffer: every line is empty or ends with
a newline. -/
def goodLines (ls : List (List Char)) : Prop :=
  ∀ l ∈ ls, l = [] ∨ l.getLast? = some '\n'

/-- Content whose line-boundary characters are all plain newlines (no
carriage returns or other splitlines boundaries). -/
abbrev nlOnly (s : List Char) : Prop := ∀ c ∈ s, isLineBreak c = true → c = '\n'

/-- A falsy string value is the empty string. -/
theorem truthy_str_false (s : String) (h : (JVal.str s).truthy = false) : s = "" := by
  simp [JVal.truthy] at h
  exact (String.isEmpty_iff s).mp h

/-- fixLastLine only touches the last element. -/
theorem fixLast_cons (x : List Char) (y : List Char) (ys : List (List Char)) :
    fixLastLine (x :: y :: ys) = x :: fixLastLine (y :: ys) := by
  unfold fixLastLine
  rw [List.getLast?_cons_cons]
  split
  · rfl
  · split
    · rfl
    · simp

/-- Splitting step for a head character other than a carriage return: a
line-boundary head closes the current line, any other head extends it. -/
theorem skego_cons_nb (acc : List Char) (c : Char) (rest : List Char) (hr : c ≠ '\r') :
    splitKeepEndsGo acc (c :: rest) =
      if isLineBreak c then (acc ++ [c]) :: splitKeepEndsGo [] rest
      else splitKeepEndsGo (acc ++ [c]) rest := by
  cases rest with
  | nil => by_cases hb : isLineBreak c <;> simp [splitKeepEndsGo, hb]
  | cons d rest2 => simp [splitKeepEndsGo, hr]

/-- After splitting content whose line boundaries are all newlines and
fixing the last line, every line ends with a newline. -/
theorem goodFixSplit : ∀ (s : List Char), nlOnly s → ∀ (acc : List Char),
    goodLines (fixLastLine (splitKeepEndsGo acc s)) := by
  intro s
  induction s with
  | nil =>
    intro _ acc
    unfold splitKeepEndsGo
    by_cases h : acc.isEmpty
    · simp [h, fixLastLine, goodLines]
    · rw [if_neg h]
      unfold fixLastLine
      simp only [List.getLast?_singleton]
      split
      · rename_i hh
        intro l hl
        simp at hl
        subst hl
        exact Or.inr (eq_of_beq hh)
      · intro l hl
        simp at hl
        subst hl
        exact Or.inr (List.getLast?_concat _)
  | cons c rest ih =>
    intro hnl acc
    have hrest : nlOnly rest := fun d hd hb => hnl d (List.mem_cons_of_mem c hd) hb
    by_cases hc : c = '\n'
    · subst hc
      rw [skego_cons_nb acc '\n' rest (by decide), if_pos (by decide)]
      cases hrest2 : splitKeepEndsGo [] rest with
      | nil =>
        unfold fixLastLine
        simp only [List.getLast?_singleton]
        split
        · intro l hl
          simp at hl
          subst hl
          exact Or.inr (List.getLast?_concat _)
        · rename_i hh
          exact absurd (beq_iff_eq.mpr (List.getLast?_concat acc)) hh
      | cons y ys =>
        rw [fixLast_cons]
        intro l hl
        cases List.mem_cons.mp hl with
        | inl h => exact h ▸ Or.inr (List.getLast?_concat _)
        | inr h =>
          have := ih hrest []
          rw [hrest2] at this
          exact this l h
    · have hb : isLineBreak c = false := by
        cases hbb : isLineBreak c
        · rfl
        · exact absurd (hnl c (List.mem_cons_self c rest) hbb) hc
      have hcr : c ≠ '\r' := by
        intro hq
        rw [hq] at hb
        exact absurd hb (by decide)
      rw [skego_cons_nb acc c rest hcr, if_neg (by simp [hb])]
      exact ih hrest (acc ++ [c])


/-- Whatever line content one patch stores is empty or ends with a
newline: a truthy content is normalized, a falsy stored content is the
empty string. -/
theorem patchContent_good (patch : JVal) (v : JVal) (c : List Char)
    (hv : patchContent patch = .ok v) (hc : toLineChars v = .ok c) :
    c = [] ∨ c.getLast? = some '\n' := by
  unfold patchContent at hv
  split at hv
  · rename_i htr
    simp only [Bind.bind, Except.bind, pure, Except.pure] at hv
    split at hv
    · exact absurd hv (by simp)
    · rename_i s hs
      cases hv
      cases hstr : (objGetD patch "content" (.str "")) with
      | str t =>
        unfold asStrA at hs
        rw [hstr] at hs
        cases hs
        unfold toLineChars at hc
        cases hc
        right
        apply normalize_pcontent_ends_nl
        intro hemp
        rw [hstr, hemp] at htr
        have hte : ("" : String).isEmpty = true := (String.isEmpty_iff "").mpr rfl
        simp [JVal.truthy, hte] at htr
      | null => rw [hstr] at hs; exact absurd hs (by simp [asStrA])
      | bool b => rw [hstr] at hs; exact absurd hs (by simp [asStrA])
      | num n => rw [hstr] at hs; exact absurd hs (by simp [asStrA])
      | arr xs => rw [hstr] at hs; exact absurd hs (by simp [asStrA])
      | obj fs => rw [hstr] at hs; exact absurd hs (by simp [asStrA])
  · rename_i htr
    simp only [pure, Except.pure] at hv
    cases hv
    cases hvv : (objGetD patch "content" (.str "")) with
    | str t =>
      rw [hvv] at hc htr
      unfold toLineChars at hc
      cases hc
      left
      rw [truthy_str_false t (by simpa using htr)]
    | null => rw [hvv] at hc; exact absurd hc (by simp [toLineChars])
    | bool b => rw [hvv] at hc; exact absurd hc (by simp [toLineChars])
    | num n => rw [hvv] at hc; exact absurd hc (by simp [toLineChars])
    | arr xs => rw [hvv] at hc; exact absurd hc (by simp [toLineChars])
    | obj fs => rw [hvv] at hc; exact absurd hc (by simp [toLineChars])

/-- Inserting into a list yields a sublist of the element consed on. -/
theorem insertIdx_subset_cons {α : Type} : ∀ (l : List α) (n : Nat) (b : α),
    (l.insertIdx n b) ⊆ b :: l := by
  intro l
  induction l with
  | nil =>
    intro n b x hx
    cases n with
    | zero => simpa using hx
    | succ m => simp [List.insertIdx] at hx
  | cons a t ih =>
    intro n b x hx
    cases n with
    | zero => simpa using hx
    | succ m =>
      simp only [List.insertIdx_succ_cons] at hx
      cases List.mem_cons.mp hx with
      | inl h => rw [h]; exact List.mem_cons_of_mem b (List.mem_cons_self a t)
      | inr h =>
        cases List.mem_cons.mp (ih m b h) with
        | inl hb => rw [hb]; exact List.mem_cons_self b (a :: t)
        | inr ht => exact List.mem_cons_of_mem b (List.mem_cons_of_mem a ht)

/-- One patch application step preserves the line invariant. -/
theorem patchStep_good (st : List (List Char) × Nat) (patch : JVal)
    (st' : List (List Char) × Nat)
    (h : patchStep st patch = .ok st') (hg : goodLines st.1) : goodLines st'.1 := by
  unfold patchStep at h
  simp only [Bind.bind, Except.bind, pure, Except.pure] at h
  repeat' split at h
  all_goals (simp only [Except.ok.injEq, reduceCtorEq] at h)
  all_goals (subst h; intro l hl)
  all_goals (first
    | exact hg l hl
    | exact hg l (List.eraseIdx_subset _ _ hl)
    | (rcases List.mem_or_eq_of_mem_set hl with hmem | rfl
       exacts [hg l hmem, patchContent_good patch _ _ (by assumption) (by assumption)])
    | (rcases List.mem_cons.mp (insertIdx_subset_cons _ _ _ hl) with rfl | hmem
       exacts [patchContent_good patch _ _ (by assumption) (by assumption), hg l hmem])
    | (rcases List.mem_append.mp hl with hmem | hsing
       exacts [hg l hmem,
         by rw [List.mem_singleton.mp hsing]
            exact patchContent_good patch _ _ (by assumption) (by assumption)]))

/-- The whole patch fold preserves the line invariant. -/
theorem foldlM_patchStep_good : ∀ (ps : List JVal) (st st' : List (List Char) × Nat),
    List.foldlM patchStep st ps = .ok st' → goodLines st.1 → goodLines st'.1 := by
  intro ps
  induction ps with
  | nil =>
    intro st st' h hg
    simp only [List.foldlM_nil] at h
    cases h
    exact hg
  | cons p rest ih =>
    intro st st' h hg
    simp only [List.foldlM_cons, Bind.bind, Except.bind] at h
    split at h
    · exact absurd h (by simp)
    · rename_i mid hmid
      exact ih mid st' h (patchStep_good st p mid hmid hg)

/-- Joining lines that are empty or newline-terminated yields the empty
file or one ending with a newline. -/
theorem joinGood : ∀ ls : List (List Char), goodLines ls →
    (ls.foldr (· ++ ·) [] = [] ∨ (ls.foldr (· ++ ·) []).getLast? = some '\n') := by
  intro ls
  induction ls with
  | nil => intro _; exact Or.inl rfl
  | cons l rest ih =>
    intro hg
    have hrest := ih (fun x hx => hg x (List.mem_cons_of_mem l hx))
    have hl := hg l (List.mem_cons_self l rest)
    simp only [List.foldr_cons]
    cases hrest with
    | inl hnil =>
      rw [hnil, List.append_nil]
      exact hl
    | inr hnl =>
      right
      have hne : rest.foldr (· ++ ·) [] ≠ [] := by
        intro hq
        rw [hq] at hnl
        simp at hnl
      rw [List.getLast?_append_of_ne_nil l hne]
      exact hnl

/-- Lookup after a store: the stored path reads the new node, others are
unchanged. -/
theorem lookupFs_storeFs : ∀ (fs : List (String × FsNode)) (p q : String) (n : FsNode),
    lookupFs (storeFs fs p n) q = if p == q then some n else lookupFs fs q := by
  intro fs
  induction fs with
  | nil => intro p q n; rfl
  | cons a rest ih =>
    intro p q n
    obtain ⟨ap, am⟩ := a
    by_cases hap : ap = p
    · subst hap
      by_cases hq : ap = q
      · subst hq
        simp [storeFs, lookupFs]
      · simp [storeFs, lookupFs, hq]
    · by_cases hq : ap = q
      · subst hq
        have hpq : ¬ p = ap := fun h => hap h.symm
        simp [storeFs, lookupFs, hap, hpq, ih]
      · simp [storeFs, lookupFs, hap, hq, ih p q n]

/-- On an environment whose files use only the newline boundary, every
file changed by a successful patch_file call is empty or ends with a
newline.  The restriction is necessary: a file using another splitlines
boundary can lose its final newline-terminated line to a patch and leave
an earlier line, which the fix-up pass never touched, at the end. -/
theorem patch_file_newline (env : Env) (call : JVal) (r : ToolResult) (env' : Env)
    (p' : String) (f' : FileData)
    (henv : ∀ (q : String) (g : FileData),
      lookupFs env.fs q = some (.file g) → nlOnly g.content)
    (h : patchFileHandler env call = .ok (r, env')) (hok : r.ok = true)
    (hl : lookupFs env'.fs p' = some (.file f')) :
    lookupFs env.fs p' = some (.file f') ∨
      (f'.content ≠ [] → f'.content.getLast? = some '\n') := by
  unfold patchFileHandler at h
  simp only [Bind.bind, Except.bind, pure, Except.pure] at h
  repeat' split at h
  all_goals (simp only [Except.ok.injEq, Prod.mk.injEq, reduceCtorEq] at h)
  all_goals (obtain ⟨rfl, rfl⟩ := h)
  all_goals (try (exact Or.inl hl))
  -- success leaf: the file at the written path is the joined patched lines
  rename_i hfold hwr
  rename_i v1 hpair
  have good1 : goodLines hpair.1 :=
    foldlM_patchStep_good _ _ _ hfold
      (by simpa [splitKeepEnds] using goodFixSplit _ (henv _ _ (by assumption)) [])
  rw [lookupFs_storeFs] at hl
  split at hl
  · right
    intro hne
    injection hl with h1
    injection h1 with h2
    rw [← h2] at hne ⊢
    exact (joinGood _ good1).resolve_left hne
  · exact Or.inl hl

/-- Environment of the C10 instance: a file whose content abc lacks a
trailing newline. -/
def envC10 : Env :=
  { fs := [("f", .file { content := "abc".data, size := 3 })], resolve := fun s => s,
    shell := fun _ _ => .completed "" 0, choose := fun _ _ => .no, trust := true, todo := none }

/-- A patch call whose single patch targets an out-of-range line, so no
patch touches the final line. -/
def callC10 : JVal := callPatch "f" [.obj [("line", .num 3), ("action", .str "delete")]]

/-- C10 amended: on files whose line boundaries are all plain newlines, a
successful patch_file call on a non-empty file lacking a final newline
appends one even when no patch targets that line, and every nonempty file
it writes ends with a newline; on the concrete abc file with only an
out-of-range patch the rewritten content is abc plus a newline.  The
newline-boundaries restriction is necessary: splitlines also splits on
carriage returns and other separators while the fix-up only checks for a
final newline, so patching a file holding other boundaries can write a
nonempty file with no trailing newline. -/
theorem C10_patch_file_trailing_newline :
    (∀ (env : Env) (call : JVal) (r : ToolResult) (env' : Env) (p' : String) (f' : FileData),
      (∀ (q : String) (g : FileData),
        lookupFs env.fs q = some (.file g) → nlOnly g.content) →
      patchFileHandler env call = .ok (r, env') → r.ok = true →
      lookupFs env'.fs p' = some (.file f') →
      lookupFs env.fs p' = some (.file f') ∨
        (f'.content ≠ [] → f'.content.getLast? = some '\n')) ∧
    patchFileHandler envC10 callC10 =
      .ok (okRes "Patched: f (0 changes)",
           { envC10 with fs := [("f", .file { content := "abc\n".data, size := 4 })] }) :=
  ⟨patch_file_newline, rfl⟩

/-- Witness for C10: the universal conjunct applied to the concrete
instance forces the rewritten content to end with a newline. -/
theorem C10_patch_file_trailing_newline_witness : ("abc\n".data : List Char).getLast? = some '\n' := by
  have henv : ∀ (q : String) (g : FileData),
      lookupFs envC10.fs q = some (.file g) → nlOnly g.content := by
    intro q g hqg
    simp only [envC10, lookupFs] at hqg
    split at hqg
    · injection hqg with h1
      injection h1 with h2
      rw [← h2]
      decide
    · exact absurd hqg (by simp)
  have h := C10_patch_file_trailing_newline.1 envC10 callC10 (okRes "Patched: f (0 changes)")
    { envC10 with fs := [("f", .file { content := "abc\n".data, size := 4 })] }
    "f" { content := "abc\n".data, size := 4 } henv C10_patch_file_trailing_newline.2 rfl rfl
  rcases h with hl | hr
  · rw [show lookupFs envC10.fs "f" = some (.file { content := "abc".data, size := 3 }) from rfl] at hl
    injection hl with h1
    injection h1 with h2
    exact absurd h2 (by decide)
  · exact hr (by decide)

/-- Environment of the C10 counterexample: a file whose content uses a
carriage-return line boundary before a final newline-terminated line. -/
def envC10x : Env :=
  { fs := [("g", .file { content := "a\rb\n".data, size := 4 })], resolve := fun s => s,
    shell := fun _ _ => .completed "" 0, choose := fun _ _ => .no, trust := true, todo := none }

/-- The C10 counterexample call: delete the second line of that file. -/
def callC10x : JVal := callPatch "g" [.obj [("line", .num 2), ("action", .str "delete")]]

/-- C10 counterexample: splitlines splits a carriage return as a line
boundary while the pre-pass only fixes a last line lacking a final
newline, so deleting the second line of the file a CR b LF succeeds and
writes the nonempty content a CR, which does not end with a newline:
not every nonempty file written by patch_file ends with a newline. -/
theorem C10_carriage_return_counterexample :
    patchFileHandler envC10x callC10x =
      .ok (okRes "Patched: g (1 changes)",
           { envC10x with fs := [("g", .file { content := "a\r".data, size := 2 })] }) ∧
    ("a\r".data : List Char).length = 2 ∧
    ("a\r".data : List Char).getLast? = some '\r' :=
  ⟨rfl, rfl, rfl⟩

/-- The acceptance test of add_tool: a dict with a truthy tool entry. -/
def isToolObj : JVal → Bool
  | .obj fields => (objGetD (.obj fields) "tool" .null).truthy
  | _ => false

/-- The value a pattern-3 candidate contributes: parse of its
brace-balanced prefix, when the depth returns to zero. -/
def parsed3 (g : List Char) : Option JVal :=
  if braceEnd g > 0 then jsonLoads (g.take (braceEnd g)) else none

/-- Declarative first-occurrence deduplication by canonical
serialization. -/
def dedupKeepFirst : List JVal → List JVal
  | [] => []
  | v :: vs => v :: dedupKeepFirst (vs.filter (fun w => !(canon w == canon v)))
termination_by l => l.length
decreasing_by
  simp only [List.length_cons]
  exact Nat.lt_succ_of_le (List.length_filter_le _ _)

/-- First-occurrence deduplication against an initial seen set, matching
the accumulator discipline of add_tool. -/
def dedupSeen (seen : List String) : List JVal → List JVal
  | [] => []
  | v :: vs =>
    if seen.contains (canon v) then dedupSeen seen vs
    else v :: dedupSeen (seen ++ [canon v]) vs

/-- The stream of valid tool objects extract_tool_calls consumes, in
source order within each pattern: fenced-block candidates then tool-tag
candidates, or, exactly when those produce nothing, the brace-balanced
bare-JSON candidates.  Malformed candidates are dropped by the filters. -/
def validStream (text : String) : List JVal :=
  let s12 := ((cands1 text.data ++ cands2 text.data).filterMap jsonLoads).filter isToolObj
  if text.isEmpty then []
  else if !s12.isEmpty then s12
  else ((cands3 text.data).filterMap parsed3).filter isToolObj

/-- Folding addCand is folding add_tool over the parseable candidates. -/
theorem foldl_addCand_eq (gs : List (List Char)) :
    ∀ st : ExtractState, gs.foldl addCand st = (gs.filterMap jsonLoads).foldl add_tool st := by
  induction gs with
  | nil => intro st; rfl
  | cons g rest ih =>
    intro st
    simp only [List.foldl_cons, addCand]
    cases hj : jsonLoads g with
    | none => simp [List.filterMap_cons, hj, ih]
    | some v => simp [List.filterMap_cons, hj, ih]

/-- Folding addCand3 is folding add_tool over the balanced parseable
candidates. -/
theorem foldl_addCand3_eq (gs : List (List Char)) :
    ∀ st : ExtractState, gs.foldl addCand3 st = (gs.filterMap parsed3).foldl add_tool st := by
  induction gs with
  | nil => intro st; rfl
  | cons g rest ih =>
    intro st
    simp only [List.foldl_cons, addCand3, parsed3]
    by_cases hb : braceEnd g > 0
    · simp only [hb, if_pos hb]
      cases hj : jsonLoads (g.take (braceEnd g)) with
      | none => simp [List.filterMap_cons, parsed3, hb, hj, ih]
      | some v => simp [List.filterMap_cons, parsed3, hb, hj, ih]
    · simp [List.filterMap_cons, parsed3, hb, ih]

/-- add_tool ignores values that are not tool objects. -/
theorem add_tool_skip (st : ExtractState) (v : JVal) (h : isToolObj v = false) :
    add_tool st v = st := by
  cases v with
  | obj fields =>
    simp only [isToolObj] at h
    simp [add_tool, h]
  | null => rfl
  | bool b => rfl
  | num n => rfl
  | str s => rfl
  | arr xs => rfl

/-- The add_tool fold computes first-occurrence deduplication, in order,
with the seen set tracking the canonical forms of the output. -/
theorem foldl_add_tool_eq (vs : List JVal) :
    ∀ (acc : List JVal) (seen : List String),
      vs.foldl add_tool (acc, seen) =
        (acc ++ dedupSeen seen (vs.filter isToolObj),
         seen ++ (dedupSeen seen (vs.filter isToolObj)).map canon) := by
  induction vs with
  | nil => intro acc seen; simp [dedupSeen]
  | cons v rest ih =>
    intro acc seen
    simp only [List.foldl_cons]
    cases ht : isToolObj v with
    | false => rw [add_tool_skip _ _ ht]; simp [List.filter_cons, ht, ih]
    | true =>
      cases v with
      | obj fields =>
        simp only [isToolObj] at ht
        simp only [List.filter_cons, isToolObj, ht, if_pos]
        by_cases hc : seen.contains (canon (.obj fields))
        · have hm : canon (.obj fields) ∈ seen := by simpa using hc
          simp only [add_tool, ht, hc, if_true, if_pos hc]
          rw [dedupSeen]
          simp [hc, hm, ih]
        · have hm : canon (.obj fields) ∉ seen := by simpa using hc
          simp only [add_tool, ht, if_true]
          rw [if_neg hc]
          rw [dedupSeen]
          simp only [hc, if_false, Bool.false_eq_true]
          rw [ih]
          simp [hm]
      | null => simp [isToolObj] at ht
      | bool b => simp [isToolObj] at ht
      | num n => simp [isToolObj] at ht
      | str s => simp [isToolObj] at ht
      | arr xs => simp [isToolObj] at ht

/-- Deduplication against a seen set is plain deduplication of the
unseen elements. -/
theorem dedupSeen_eq_dedupKeepFirst : ∀ (vs : List JVal) (seen : List String),
    dedupSeen seen vs = dedupKeepFirst (vs.filter (fun v => !seen.contains (canon v))) := by
  intro vs
  induction vs with
  | nil => intro seen; simp [dedupSeen, dedupKeepFirst]
  | cons v rest ih =>
    intro seen
    rw [dedupSeen]
    by_cases hc : seen.contains (canon v) = true
    · rw [if_pos hc]
      have hcf : (!seen.contains (canon v)) = false := by rw [hc]; rfl
      simp only [List.filter_cons, hcf, Bool.false_eq_true, if_false]
      exact ih seen
    · have hcb : (!seen.contains (canon v)) = true := by
        cases hh : seen.contains (canon v)
        · rfl
        · exact absurd hh hc
      rw [if_neg hc]
      simp only [List.filter_cons, hcb, if_true]
      rw [dedupKeepFirst]
      rw [ih (seen ++ [canon v])]
      rw [List.filter_filter]
      congr 1
      congr 1
      apply List.filter_congr
      intro x _
      show (!(seen ++ [canon v]).contains (canon x)) = (!(canon x == canon v) && !seen.contains (canon x))
      cases h1 : seen.contains (canon x) <;> cases h2 : canon x == canon v <;>
        simp_all [List.contains]

/-- Deduplication of the empty stream. -/
theorem dedupKeepFirst_nil : dedupKeepFirst [] = [] := by simp [dedupKeepFirst]

/-- Unfolding lemma of dedupKeepFirst. -/
theorem dedupKeepFirst_cons (v : JVal) (vs : List JVal) :
    dedupKeepFirst (v :: vs) = v :: dedupKeepFirst (vs.filter (fun w => !(canon w == canon v))) := by
  rw [dedupKeepFirst]

/-- The state after patterns 1 and 2: the deduplicated valid candidates
of both patterns in order, with their canonical forms as the seen set. -/
theorem state12_eq (cs : List Char) :
    state12 cs =
      (dedupKeepFirst (((cands1 cs ++ cands2 cs).filterMap jsonLoads).filter isToolObj),
       (dedupKeepFirst (((cands1 cs ++ cands2 cs).filterMap jsonLoads).filter isToolObj)).map canon) := by
  unfold state12
  rw [← List.foldl_append]
  rw [foldl_addCand_eq]
  rw [foldl_add_tool_eq]
  rw [dedupSeen_eq_dedupKeepFirst]
  simp [List.contains]

/-- C5 amended: extract_tool_calls returns the first-occurrence
deduplication of its candidate stream: pattern-1 candidates in source
order, then pattern-2 candidates in source order, with the bare-JSON
scan only when those yield nothing; duplicates collapse to the first
occurrence, malformed candidates are dropped without affecting the rest,
and the function is total. -/
theorem C5_extract_order_and_dedup (text : String) :
    extract_tool_calls text = dedupKeepFirst (validStream text) := by
  unfold extract_tool_calls validStream
  by_cases he : text.isEmpty = true
  · simp [he, dedupKeepFirst_nil]
  · simp only [he, if_false, Bool.false_eq_true]
    by_cases hnil :
        (((cands1 text.data ++ cands2 text.data).filterMap jsonLoads).filter isToolObj) = []
    · rw [state12_eq, hnil, dedupKeepFirst_nil]
      simp only [List.isEmpty_nil, if_true, List.map_nil]
      rw [foldl_addCand3_eq, foldl_add_tool_eq, dedupSeen_eq_dedupKeepFirst]
      simp [List.contains]
    · have hne : (dedupKeepFirst (((cands1 text.data ++ cands2 text.data).filterMap jsonLoads).filter isToolObj)) ≠ [] := by
        cases hq : (((cands1 text.data ++ cands2 text.data).filterMap jsonLoads).filter isToolObj) with
        | nil => exact absurd hq hnil
        | cons a l => rw [dedupKeepFirst_cons]; simp
      rw [state12_eq]
      have hie : (dedupKeepFirst (((cands1 text.data ++ cands2 text.data).filterMap jsonLoads).filter isToolObj)).isEmpty = false := by
        cases hq : dedupKeepFirst (((cands1 text.data ++ cands2 text.data).filterMap jsonLoads).filter isToolObj) with
        | nil => exact absurd hq hne
        | cons a l => rfl
      have hie2 : (((cands1 text.data ++ cands2 text.data).filterMap jsonLoads).filter isToolObj).isEmpty = false := by
        cases hq : (((cands1 text.data ++ cands2 text.data).filterMap jsonLoads).filter isToolObj) with
        | nil => exact absurd hq hnil
        | cons a l => rfl
      simp only [hie, hie2, Bool.not_false, if_true, if_false, Bool.false_eq_true]

/-- First index at which a pattern occurs as a contiguous substring. -/
def subPos (pat : List Char) : List Char → Option Nat
  | [] => if pat.isEmpty then some 0 else none
  | c :: rest => if pat.isPrefixOf (c :: rest) then some 0 else (subPos pat rest).map (· + 1)

/-- The C5 counterexample text: a tool-tag call for a occurs before a
fenced call for b. -/
def textC5 : String :=
  "<tool>\x7b\"tool\": \"a\"\x7d</tool> and ```json \x7b\"tool\": \"b\"\x7d```"


/-- The C4 instance text: a bare tool object followed by prose and a
second brace group. -/
def textC4 : String := "Do \x7b\"tool\": \"x\"\x7dok fine \x7b\"a\": 1\x7d z"

/-- The single pattern-3 candidate of the C4 instance text: the regex
overshoots past the object into the trailing prose. -/
def candC4 : List Char := "\x7b\"tool\": \"x\"\x7dok fine \x7b\"a\": 1\x7d".data

/-- C4: the bare-JSON scan runs only when patterns 1 and 2 produced no
tool calls (extract returns their output whenever it is nonempty, and
falls back to the pattern-3 fold exactly when it is empty); on the
concrete instance the regex candidate overshoots into trailing prose,
its direct parse fails, brace balancing finds the true end at index 13,
and exactly the bare object is extracted. -/
theorem C4_bare_scan_priority_and_balancing :
    (∀ text : String, (state12 text.data).1 ≠ [] →
      extract_tool_calls text = (state12 text.data).1) ∧
    (∀ text : String, (state12 text.data).1 = [] →
      extract_tool_calls text = ((cands3 text.data).foldl addCand3 (state12 text.data)).1) ∧
    (cands3 textC4.data = [candC4] ∧
     jsonLoads candC4 = none ∧
     braceEnd candC4 = 13 ∧
     jsonLoads (candC4.take (braceEnd candC4)) = some (.obj [("tool", .str "x")]) ∧
     extract_tool_calls textC4 = [.obj [("tool", .str "x")]]) := by
  refine ⟨?_, ?_, rfl, rfl, rfl, rfl, rfl⟩
  · intro text h
    unfold extract_tool_calls
    by_cases he : text.isEmpty = true
    · exfalso
      rw [(String.isEmpty_iff text).mp he] at h
      exact h rfl
    · have hie : (state12 text.data).1.isEmpty = false := by
        cases hq : (state12 text.data).1 with
        | nil => exact absurd hq h
        | cons a l => rfl
      simp [he, hie]
  · intro text h
    unfold extract_tool_calls
    by_cases he : text.isEmpty = true
    · rw [(String.isEmpty_iff text).mp he]
      rfl
    · have hie : (state12 text.data).1.isEmpty = true := by rw [h]; rfl
      simp [he, hie]

/-- A text whose fenced pattern yields a call, for the C4 witness. -/
def textC4w : String := "```json \x7b\"tool\": \"t\"\x7d```"

/-- Witness for C4: the priority conjunct applied to a text whose fenced
pattern produces a tool call. -/
theorem C4_bare_scan_priority_and_balancing_witness :
    extract_tool_calls textC4w = (state12 textC4w.data).1 :=
  C4_bare_scan_priority_and_balancing.1 textC4w (by
    rw [show (state12 textC4w.data).1 = [.obj [("tool", .str "t")]] from rfl]
    simp)

/-- C5 counterexample: on textC5 the tool-tag call for a occurs at index
6, before the fenced call for b at index 39, yet extraction returns the
fenced b first; the output is not in first-occurrence order of the
source text. -/
theorem C5_first_occurrence_counterexample :
    extract_tool_calls textC5 = [.obj [("tool", .str "b")], .obj [("tool", .str "a")]] ∧
    canon (JVal.obj [("tool", .str "a")]) ≠ canon (JVal.obj [("tool", .str "b")]) ∧
    subPos "\x7b\"tool\": \"a\"\x7d".data textC5.data = some 6 ∧
    subPos "\x7b\"tool\": \"b\"\x7d".data textC5.data = some 39 :=
  ⟨rfl, by decide, rfl, rfl⟩

/-- First index in the window of n credentials starting at i whose attempt
succeeds. -/
def firstOk (http : Nat → HttpOutcome) : Nat → Nat → Option Nat
  | _, 0 => none
  | i, n + 1 =>
    match attempt i (http i) with
    | .success _ => some i
    | .recorded _ => firstOk http (i + 1) n

/-- The error string credential k's attempt records (empty on success,
where it is never consulted). -/
def errOf (http : Nat → HttpOutcome) (k : Nat) : String :=
  match attempt k (http k) with
  | .recorded e => e
  | .success _ => ""

/-- The content credential k's attempt returns (null on failure, where it
is never consulted). -/
def contentAt (http : Nat → HttpOutcome) (k : Nat) : JVal :=
  match attempt k (http k) with
  | .success c => c
  | .recorded _ => .null

/-- Intermediate characterization of the credential loop from position i
with n credentials left: first success wins with the errors of the
credentials tried before it appended; otherwise every attempt's error is
recorded in order and the last three are surfaced. -/
def poeAfter (http : Nat → HttpOutcome) (model : String) (i n : Nat)
    (errors : List String) : PoeResult × List String :=
  match firstOk http i n with
  | some j =>
    (.success (contentAt http j) model,
     errors ++ (List.range' i (j - i)).map (errOf http))
  | none =>
    let es := errors ++ (List.range' i n).map (errOf http)
    (.failure (if es.isEmpty then "All keys exhausted"
               else joinSep "; " (es.drop (es.length - 3))), es)

/-- Specification-side description of the backend client: credentials are
tried in list order, the first successful attempt wins carrying the errors
recorded so far, and if none succeeds the per-credential errors are all
recorded in order with the last three surfaced. -/
def poeSpec (keys : List String) (http : Nat → HttpOutcome)
    (model : String) : PoeResult × List String :=
  if keys.isEmpty then (.failure "No API keys configured", [])
  else
    match firstOk http 0 keys.length with
    | some j =>
      (.success (contentAt http j) model, (List.range' 0 j).map (errOf http))
    | none =>
      let es := (List.range' 0 keys.length).map (errOf http)
      (.failure (joinSep "; " (es.drop (es.length - 3))), es)

/-- A found first success lies at or after the window's start. -/
theorem firstOk_ge (http : Nat → HttpOutcome) :
    ∀ (n i j : Nat), firstOk http i n = some j → i ≤ j := by
  intro n
  induction n with
  | zero => intro i j h; simp [firstOk] at h
  | succ n ih =>
    intro i j h
    simp only [firstOk] at h
    split at h
    · cases h; exact Nat.le_refl i
    · exact Nat.le_trans (Nat.le_succ i) (ih (i + 1) j h)

/-- The credential loop computes its declarative characterization. -/
theorem chat_poe_loop_eq (http : Nat → HttpOutcome) (model : String) :
    ∀ (n i : Nat) (errors : List String),
    chat_poe_loop http model i n errors = poeAfter http model i n errors := by
  intro n
  induction n with
  | zero =>
    intro i errors
    simp [chat_poe_loop, poeAfter, firstOk]
  | succ n ih =>
    intro i errors
    simp only [chat_poe_loop]
    cases h : attempt i (http i) with
    | success c =>
      simp only [poeAfter, firstOk, h]
      simp [contentAt, h]
    | recorded e =>
      show chat_poe_loop http model (i + 1) n (errors ++ [e]) =
        poeAfter http model i (n + 1) errors
      rw [ih (i + 1) (errors ++ [e])]
      simp only [poeAfter, firstOk, h]
      cases hj : firstOk http (i + 1) n with
      | some j =>
        have hij : i + 1 ≤ j := firstOk_ge http n (i + 1) j hj
        have hrange : List.range' i (j - i) = i :: List.range' (i + 1) (j - (i + 1)) := by
          have : j - i = (j - (i + 1)) + 1 := by omega
          rw [this]
          rfl
        simp [hrange, errOf, h]
      | none =>
        have hrange : List.range' i (n + 1) = i :: List.range' (i + 1) n := rfl
        simp [hrange, errOf, h]

/-- The backend client equals its specification-side description. -/
theorem chat_poe_eq_poeSpec (keys : List String) (http : Nat → HttpOutcome)
    (model : String) : chat_poe keys http model = poeSpec keys http model := by
  cases keys with
  | nil => rfl
  | cons k ks =>
    simp only [chat_poe, poeSpec, List.isEmpty_cons, Bool.false_eq_true,
      if_false, chat_poe_loop_eq, poeAfter]
    cases hj : firstOk http 0 (k :: ks).length with
    | some j => simp
    | none =>
      simp only [List.length_cons]
      have hrange : List.range' 0 (ks.length + 1) = 0 :: List.range' 1 ks.length := rfl
      simp [hrange]

/-- The HTTP outcomes of the C3 scenario: the first two credentials draw
HTTP 500, the third a well-formed success body. -/
def httpC3 : Nat → HttpOutcome := fun i =>
  if i = 0 ∨ i = 1 then .response 500 none
  else .response 200 (some (.obj [("choices",
    .arr [.obj [("message", .obj [("content", .str "hi")])]])]))

/-- C3 amended: credentials are tried in list order; an attempt succeeds
exactly when the HTTP response is successful (status below 400), the body
parses, and extracting the first choice's message content raises no
exception; every failed attempt records one error string tagged with its
credential's position and the next credential is tried; the whole client
equals this declarative scan; in the 3-credential scenario where the first
two draw HTTP 500 and the third a valid choice, the third credential
succeeds with exactly two errors recorded. -/
theorem C3_credential_loop_characterization :
    (∀ (i status : Nat) (body : Option JVal),
        (∃ c, attempt i (.response status body) = .success c) ↔
          (status < 400 ∧
            ∃ data c, body = some data ∧ poeInnerTry data = .ok (some c)))
    ∧ (∀ (i : Nat) (o : HttpOutcome),
        (∃ c, attempt i o = .success c)
          ∨ (∃ r, attempt i o = .recorded (keyTag i ++ r)))
    ∧ (∀ (keys : List String) (http : Nat → HttpOutcome) (model : String),
        chat_poe keys http model = poeSpec keys http model)
    ∧ firstOk httpC3 0 3 = some 2
    ∧ chat_poe ["k1", "k2", "k3"] httpC3 "m" =
        (.success (.str "hi") "m", ["Key 1: HTTP 500", "Key 2: HTTP 500"]) := by
  refine ⟨?_, ?_, chat_poe_eq_poeSpec, rfl, rfl⟩
  · intro i status body
    constructor
    · rintro ⟨c, hc⟩
      by_cases h4 : status < 400
      · cases body with
        | none => simp [attempt, h4] at hc
        | some data =>
          cases hp : poeInnerTry data with
          | ok oc =>
            cases oc with
            | some c2 => exact ⟨h4, data, c2, rfl, hp⟩
            | none => simp [attempt, h4, hp] at hc
          | error e =>
            by_cases he : e = .keyError ∨ e = .indexError
            · simp [attempt, h4, hp, he] at hc
            · simp [attempt, h4, hp, he] at hc
      · simp [attempt, h4] at hc
    · rintro ⟨h4, data, c, rfl, hp⟩
      exact ⟨c, by simp [attempt, h4, hp]⟩
  · intro i o
    cases o with
    | timeout => exact .inr ⟨"Timeout", rfl⟩
    | connError => exact .inr ⟨"Connection failed", rfl⟩
    | exc m => exact .inr ⟨m, rfl⟩
    | response status body =>
      by_cases h4 : status < 400
      · cases body with
        | none => exact .inr ⟨"Malformed JSON", by simp [attempt, h4]⟩
        | some data =>
          cases hp : poeInnerTry data with
          | ok oc =>
            cases oc with
            | some c => exact .inl ⟨c, by simp [attempt, h4, hp]⟩
            | none =>
              exact .inr ⟨"Invalid response format", by simp [attempt, h4, hp]⟩
          | error e =>
            by_cases he : e = .keyError ∨ e = .indexError
            · exact .inr ⟨"Malformed JSON", by simp [attempt, h4, hp, he]⟩
            · exact .inr ⟨e.toMessage, by simp [attempt, h4, hp, he]⟩
      · exact .inr ⟨"HTTP " ++ toString status, by simp [attempt, h4, String.append_assoc]⟩

/-- The success condition in the words of the spec sentence under test:
HTTP success and a body holding a non-empty choices list. -/
def specSuccessC3 (o : HttpOutcome) : Bool :=
  match o with
  | .response status (some (.obj fields)) =>
    decide (status < 400) &&
      (match lookupField fields "choices" with
       | some (.arr (_ :: _)) => true
       | _ => false)
  | _ => false

/-- The C3 counterexample outcome: HTTP 200 with body made of a non-empty
choices list whose sole element is the number 5. -/
def oC3 : HttpOutcome := .response 200 (some (.obj [("choices", .arr [.num 5])]))

/-- C3 counterexample: on an HTTP-successful response whose body holds the
non-empty choices list [5], the spec's success condition holds, yet the
attempt fails: extracting the first choice's message raises
AttributeError, which the blanket handler records as this credential's
error, and a one-credential run returns a failure. -/
theorem C3_nonempty_choices_counterexample :
    specSuccessC3 oC3 = true
    ∧ attempt 0 oC3 = .recorded "Key 1: AttributeError"
    ∧ chat_poe ["k"] (fun _ => oC3) "m" =
        (.failure "Key 1: AttributeError", ["Key 1: AttributeError"]) :=
  ⟨rfl, rfl, rfl⟩
